import Mathlib

/-!
Verification of the stage-1 "prepare for eval" dependency-graph engine of the
linaria repository (`src/packages/babel/src/transform-stages/1-prepare-for-eval.ts`).

The embedding is shallow: JavaScript strings are Lean `String` (or `List Char`
where character-level structure matters, namely the resolution-cache value
encoding `"{resolved}\0{names joined by commas}"`), JS `Map`s are association
lists with `Map.set` semantics (update in place, insert at the end), JS `Set`s
are insertion-ordered duplicate-free lists, and the success callbacks created by
`processImports` (closures over the mutable `remaining` set and `deadImports`
array of one import batch) are represented as references into an explicit store
of batch states carried in the driver state.

External collaborators (babel transform, the parser, `readFileSync`, `extname`,
`dirname`, dynamic `require` of evaluator modules, option merging) are fields of
an `Env` record, exactly the boundary drawn by the spec. Repository modules that
are imported by the source file but are not under `src/` (`ModuleQueue`,
`getMatchedRule`/`parseFile`, `withLinariaMetadata`, the cache collection's
`invalidateIfChanged`) are modelled from the spec and marked as such.
-/

/-! ## Generic helpers: JS collections -/

/-- Insertion into a JS `Set` held as an insertion-ordered duplicate-free list:
`Set.prototype.add` appends the element iff it is not present yet. -/
def jsSetAdd {α : Type} [DecidableEq α] (l : List α) (x : α) : List α :=
  if x ∈ l then l else l ++ [x]

/-- `new Set(list)` as an insertion-ordered duplicate-free list. -/
def jsSetOfList {α : Type} [DecidableEq α] (l : List α) : List α :=
  l.foldl jsSetAdd []

/-- Lookup in a JS `Map` modelled as an association list. -/
def mapGet {α : Type} (l : List (String × α)) (k : String) : Option α :=
  (l.find? (fun p => p.1 = k)).map (·.2)

/-- `Map.set`: update in place if the key exists, otherwise append. -/
def mapSet {α : Type} (l : List (String × α)) (k : String) (v : α) :
    List (String × α) :=
  if (l.find? (fun p => p.1 = k)).isSome then
    l.map (fun p => if p.1 = k then (k, v) else p)
  else l ++ [(k, v)]

/-- `Map.delete`. -/
def mapDelete {α : Type} (l : List (String × α)) (k : String) :
    List (String × α) :=
  l.filter (fun p => ¬ p.1 = k)

/-! ## Character-level string helpers for the resolution-cache value encoding

The source stores resolution-cache values as `` `${resolved}\0${names.join(',')}` ``
and reads them back with `split('\0')` / `split(',')`.  These are modelled on
`List Char`, with `splitOnChar` matching the semantics of JS
`String.prototype.split` with a single-character separator (in particular
`"".split(sep)` is `[""]`). -/

def splitOnChar (sep : Char) : List Char → List (List Char)
  | [] => [[]]
  | c :: rest =>
    if c = sep then [] :: splitOnChar sep rest
    else
      match splitOnChar sep rest with
      | [] => [[c]]
      | p :: ps => (c :: p) :: ps

/-- `Array.prototype.join` with a single-character separator. -/
def joinWithChar (sep : Char) : List (List Char) → List Char
  | [] => []
  | [p] => p
  | p :: ps => p ++ sep :: joinWithChar sep ps

/-- The NUL character used by the source as the field separator. -/
def nulChar : Char := Char.ofNat 0

/-! ## Sorting (JS `Array.prototype.sort` on strings) -/

def sortStr (l : List String) : List String :=
  l.mergeSort (fun a b => decide (a ≤ b))

/-! ## Data model -/

/-- A babel AST (`File`).  Its contents are opaque to this stage except for the
presence check `result.ast?.program` in `runPreevalStage`, so it is modelled as
an identifier together with an optional program marker. -/
structure BFile where
  tag : String
  program : Option Unit
deriving DecidableEq

/-- Linaria processing metadata.  Modelled from the spec: `withLinariaMetadata`
(from `../utils/withLinariaMetadata`, not under `src/`) is described as "a
boolean-ish presence check" on otherwise opaque metadata, so the metadata is a
record with the single flag that check inspects. -/
structure BMetadata where
  hasLinariaData : Bool
deriving DecidableEq

/-- `BabelFileResult` as far as this stage observes it: `ast` and `code` can be
absent (babel's types), `metadata` is optional. -/
structure BabelFileResult where
  ast : Option BFile
  code : String
  metadata : Option BMetadata
deriving DecidableEq

/-- Modelled from the spec: `withLinariaMetadata` lives in
`../utils/withLinariaMetadata`, which is not under `src/`.  The spec (§6)
specifies it as "a boolean-ish presence check" of processing metadata. -/
def withLinariaMetadata (m : Option BMetadata) : Bool :=
  match m with
  | none => false
  | some x => x.hasLinariaData

/-- A babel `PluginItem`: a string, a bare function, a plugin object (whose
`key` property, if any, is recorded), or a `[plugin, options]` pair (a JS array,
which is `typeof === 'object'` but has no `key` property). -/
inductive PluginItem where
  | str : String → PluginItem
  | fn : String → PluginItem
  | obj : Option String → PluginItem
  | pair : String → PluginItem
deriving DecidableEq

/-- `isModuleResolver` (source lines 24–27): an object value whose `key`
property is `'module-resolver'`.  A string or function is not
`typeof === 'object'`; an array (`pair`) is, but its `key` access yields
`undefined`. -/
def isModuleResolver (i : PluginItem) : Bool :=
  match i with
  | .obj (some k) => k = "module-resolver"
  | _ => false

/-- Parse configuration as far as this stage observes it: its optional plugin
list (`parseConfig.plugins?.find(isModuleResolver)`); everything else is opaque
and carried as a tag. -/
structure ParseConfig where
  plugins : Option (List PluginItem)
  tag : String
deriving DecidableEq

/-- A resolved import record `{from, what, file}` built in `processImports`
(`from` is the imported specifier, `file` the resolved path or `null`).
`from` is a Lean keyword, hence the field name `fromName`. -/
structure ImportRef where
  fromName : String
  what : String
  file : Option String
deriving DecidableEq

/-- The evaluator config `{onlyExports, deadImports}` passed to the evaluator. -/
structure EvaluatorConfig where
  onlyExports : List String
  deadImports : List ImportRef
deriving DecidableEq

/-- The evaluator's return tuple
`[ast, code, imports, exports?, deadExports?]`. -/
structure EvalReturn where
  ast : BFile
  code : String
  (imports : Option (List (String × List String)))
  exports : Option (List String)
  deadExports : Option (List String)

/-- A pluggable evaluator: `(filename, pluginOptions-tag, [ast, code], config) ↦
result`.  The global plugin options are opaque to the evaluator's selection
logic here and represented by the options tag. -/
def EvaluatorFn : Type := String → BFile → String → EvaluatorConfig → EvalReturn

/-- A rule action: `Evaluator | 'ignore' | string`. -/
inductive RuleAction where
  | ignoreAction : RuleAction
  | evaluatorFn : EvaluatorFn → RuleAction
  | modulePath : String → RuleAction

/-- An `EvalRule`.  The `test` is modelled as an optional predicate over
`(path, code)` (the spec: a pattern over the path or a predicate over both; a
rule without a test matches everything). -/
structure EvalRule where
  test : Option (String → String → Bool)
  action : RuleAction
  babelOptions : Option ParseConfig

/-- The `StrictOptions` fields this stage reads: `extensions`, `rules`, and the
global `babelOptions` (opaque, merged by the external `buildOptions`). -/
structure PluginOptions where
  extensions : List String
  rules : List EvalRule
  babelOptions : ParseConfig

/-- `IEntrypoint`: one unit of work. -/
structure IEntrypoint where
  code : String
  evaluator : EvaluatorFn
  name : String
  only : List String
  parseConfig : ParseConfig
  deadImports : List ImportRef

/-- A success callback.  In the source these are closures (`onEveryImport`
closes over one import batch's mutable `remaining` set and `deadImports`
array); here a callback is either the no-op seed callback or a reference to a
batch stored in the driver state. -/
inductive OnSuccess where
  | noop : OnSuccess
  | everyImport : Nat → OnSuccess
deriving DecidableEq

/-- A queue item (`NextItem`): entrypoint, import-chain stack, callback.
Modelled from the spec: `ModuleQueue` lives in `helpers/ModuleQueue`, which is
not under `src/`; the spec (§4.2) specifies a FIFO queue of entrypoint/chain
pairs each paired with a success callback. -/
structure NextItem where
  entrypoint : IEntrypoint
  stack : List String
  onSuccess : OnSuccess

/-- `ITransformFileResult`. -/
structure ITransformFileResult where
  ast : BFile
  code : String
  metadata : Option BMetadata
  exports : Option (List String)
  deadExports : List String
deriving DecidableEq

/-- A result-cache (`codeCache`) entry `{imports, only, result}`. -/
structure CodeCacheEntry where
  (imports : Option (List (String × List String)))
  only : List String
  result : ITransformFileResult
deriving DecidableEq

/-- The `TransformCacheCollection`.  The collection itself (`../cache`) is not
under `src/`; its shape is modelled from the spec (§2, §4.1): a parsed-source
cache, a result cache, an eval-level cache (only deletion is observed here, so
the entry payload is irrelevant and only key presence is kept), the resolution
cache, and the stored source texts consulted by `invalidateIfChanged`. -/
structure CacheState where
  originalAST : List (String × BFile)
  codeCache : List (String × CodeCacheEntry)
  evalCache : List String
  resolveCache : List (String × List Char)
  sources : List (String × String)
deriving DecidableEq

/-- One import batch: the closure state of `onEveryImport` in `processImports`
(source lines 272–319): the flattened `allImports`, the collected `deadImports`,
the `remaining` set of resolved files (note: a `Set` of `string | null` values,
since `i.file` is the possibly-`null` resolved path), and the parent item. -/
structure Batch where
  allImports : List ImportRef
  deadImports : List ImportRef
  remaining : List (Option String)
  parent : NextItem

/-- Observable driver events (instrumentation mirroring the source's
`queue.enqueue(...)` calls and `item.onSuccess(...)` invocations). -/
inductive DriverEvent where
  | enqueued : String → DriverEvent
  | successInvoked : String → DriverEvent
deriving DecidableEq

/-- The driver state: shared caches, the FIFO queue, the store of batch states
(closure environments of the `onEveryImport` callbacks), a fresh-id counter and
the event log. -/
structure DriverState where
  cache : CacheState
  queue : List NextItem
  batches : List (Nat × Batch)
  nextBatchId : Nat
  events : List DriverEvent

/-- The external collaborators of this stage. -/
structure Env where
  extname : String → String
  parseFile : String → String → ParseConfig → BFile
  transformFromAst : List PluginItem → String → BFile → String → Option BabelFileResult
  requireEvaluator : String → String → EvaluatorFn
  readFile : String → String
  dirname : String → String
  buildParseConfig : ParseConfig → Option ParseConfig → String → ParseConfig

/-! ## Operations (translated from the source) -/

/-- The preeval plugin entry
`[require.resolve('../plugins/preeval'), pluginOptions]` (a `[plugin, options]`
array). -/
def preevalPlugin : PluginItem := PluginItem.pair "../plugins/preeval"

/-- The transform plugin list built by `runPreevalStage` (source lines 39–46):
start from `[preeval]` and `unshift` the first module-resolver plugin of the
item's parse config, if any. -/
def buildTransformPlugins (parseConfig : ParseConfig) : List PluginItem :=
  let base := [preevalPlugin]
  match (parseConfig.plugins.getD []).find? isModuleResolver with
  | some p => p :: base
  | none => base

/-- `runPreevalStage` (source lines 29–70): run the babel transform with the
built plugin list; `throw` when there is no result or the result has no
`ast.program`. -/
def runPreevalStage (env : Env) (item : IEntrypoint) (ast : BFile) :
    Except String BabelFileResult :=
  match env.transformFromAst (buildTransformPlugins item.parseConfig)
      item.name ast item.code with
  | none => Except.error "Babel transform failed"
  | some result =>
    match result.ast with
    | none => Except.error "Babel transform failed"
    | some f =>
      match f.program with
      | none => Except.error "Babel transform failed"
      | some _ => Except.ok result

/-- The TypeScript non-null assertion `result.ast!` (no runtime effect; after
`runPreevalStage`'s check the `ast` is always present). -/
def getAstBang (r : BabelFileResult) : BFile := r.ast.getD { tag := "", program := none }

/-- The result of `prepareCode`, plus the instrumentation flag
`evaluatorInvoked` recording which branch produced it (the source logs
`'stage-1:evaluator:end', 'no metadata'` on the short-circuit branch and
invokes `evaluator` on the other). -/
structure PrepareCodeResult where
  ast : BFile
  code : String
  (imports : Option (List (String × List String)))
  exports : Option (List String)
  deadExports : List String
  metadata : Option BMetadata
  evaluatorInvoked : Bool

/-- `prepareCode` (source lines 72–136). -/
def prepareCode (env : Env) (item : IEntrypoint) (originalAst : BFile) :
    Except String PrepareCodeResult :=
  match runPreevalStage env item originalAst with
  | Except.error e => Except.error e
  | Except.ok pre =>
    if item.only = ["__linariaPreval"] ∧ withLinariaMetadata pre.metadata = false then
      Except.ok { ast := getAstBang pre, code := pre.code,
                  metadata := pre.metadata, imports := none, exports := none,
                  deadExports := [], evaluatorInvoked := false }
    else
      let evaluatorConfig : EvaluatorConfig :=
        { onlyExports := item.only, deadImports := item.deadImports }
      let r := item.evaluator item.name (getAstBang pre) pre.code evaluatorConfig
      Except.ok { ast := r.ast, code := r.code, imports := r.imports,
                  exports := r.exports, deadExports := r.deadExports.getD [],
                  metadata := pre.metadata, evaluatorInvoked := true }

/-- The record returned by `processQueueItem`. -/
structure ProcessedItem where
  (imports : Option (List (String × List String)))
  name : String
  result : ITransformFileResult

/-- `processQueueItem` (source lines 138–189): parse (or reuse the parsed-source
cache), run `prepareCode`, and drop the item (`return undefined`) when the
prepared code is the empty string. -/
def processQueueItem (env : Env) (item : Option IEntrypoint) (cache : CacheState) :
    Except String (Option ProcessedItem × CacheState) :=
  match item with
  | none => Except.ok (none, cache)
  | some item =>
    let ast := (mapGet cache.originalAST item.name).getD
      (env.parseFile item.name item.code item.parseConfig)
    let cache := { cache with originalAST := mapSet cache.originalAST item.name ast }
    match prepareCode env item ast with
    | Except.error e => Except.error e
    | Except.ok p =>
      if p.code = "" then Except.ok (none, cache)
      else
        Except.ok (some { imports := p.imports,
                          name := item.name,
                          result := { ast := p.ast, code := p.code,
                                      metadata := p.metadata,
                                      exports := p.exports,
                                      deadExports := p.deadExports } }, cache)

/-- `isEqual` (source lines 191–197): `true` when the first list contains `'*'`;
otherwise compare lengths and then the two lists sorted. -/
def isEqual (a b : List String) : Bool :=
  if a.contains "*" then true
  else if a.length ≠ b.length then false
  else decide (sortStr a = sortStr b)

/-- The result of `getMatchedRule`. -/
structure MatchedRule where
  action : RuleAction
  babelOptions : Option ParseConfig

/-- Modelled from the spec: `getMatchedRule` lives in `helpers/parseFile`,
which is not under `src/`.  Spec §4.3/§6: the path/source are matched against
the ordered rule list, the first matching rule wins (a rule without a test
matches everything), and when nothing matches the fallback action is
`'ignore'`. -/
def getMatchedRule (rules : List EvalRule) (name code : String) : MatchedRule :=
  match rules.find? (fun r =>
      match r.test with
      | none => true
      | some t => t name code) with
  | some r => { action := r.action, babelOptions := r.babelOptions }
  | none => { action := RuleAction.ignoreAction, babelOptions := none }

inductive CreateEntrypointResult where
  | ignored : CreateEntrypointResult
  | entry : IEntrypoint → CreateEntrypointResult

/-- `createEntrypoint` (source lines 199–257). -/
def createEntrypoint (env : Env) (po : PluginOptions) (name : String)
    (only : List String) (code : String) : CreateEntrypointResult :=
  let extension := env.extname name
  if ¬ po.extensions.contains extension then CreateEntrypointResult.ignored
  else
    let matched := getMatchedRule po.rules name code
    match matched.action with
    | RuleAction.ignoreAction => CreateEntrypointResult.ignored
    | RuleAction.evaluatorFn e =>
      CreateEntrypointResult.entry
        { code := code, evaluator := e, name := name, only := only,
          parseConfig := env.buildParseConfig po.babelOptions matched.babelOptions name,
          deadImports := [] }
    | RuleAction.modulePath p =>
      CreateEntrypointResult.entry
        { code := code, evaluator := env.requireEvaluator p (env.dirname name),
          name := name, only := only,
          parseConfig := env.buildParseConfig po.babelOptions matched.babelOptions name,
          deadImports := [] }

/-- Modelled from the spec: `invalidateIfChanged` is a method of the
`TransformCacheCollection` (`../cache`), which is not under `src/`.  Spec
§4.1/§3: if the stored source for the path differs from the new source, the
result-cache entry for the path, the downstream eval-level entry, and the
resolution edges the path is the importer side of are dropped. -/
def invalidateIfChanged (cache : CacheState) (name code : String) : CacheState :=
  match mapGet cache.sources name with
  | some stored =>
    if stored ≠ code then
      { cache with
        codeCache := mapDelete cache.codeCache name
        evalCache := cache.evalCache.filter (fun k => ¬ k = name)
        resolveCache := cache.resolveCache.filter
          (fun p => ¬ p.1.startsWith (name ++ " -> "))
        sources := mapSet cache.sources name code }
    else cache
  | none => { cache with sources := mapSet cache.sources name code }

/-- The non-skip outcome of `processEntrypoint`. -/
structure ProcDone where
  (imports : Option (List (String × List String)))
  result : ITransformFileResult
  only : List String
deriving DecidableEq

/-- `processEntrypoint`'s outcome: `skip`, or a result together with the
instrumentation flag `fromCache` (`true` on the branch that reuses the cached
result, where the source logs `'%s is already processed'`). -/
inductive ProcEntryOut where
  | skip : CacheState → ProcEntryOut
  | done : ProcDone → Bool → CacheState → ProcEntryOut
deriving DecidableEq

/-- The recomputation tail of `processEntrypoint` (source lines 415–433): run
`processQueueItem` with the merged `only`; `skip` when it returns nothing. -/
def processEntrypointRecompute (env : Env) (cache : CacheState) (nextItem : NextItem)
    (mergedOnly : List String) : Except String ProcEntryOut :=
  match processQueueItem env (some { nextItem.entrypoint with only := mergedOnly }) cache with
  | Except.error e => Except.error e
  | Except.ok (none, cache) => Except.ok (ProcEntryOut.skip cache)
  | Except.ok (some p, cache) =>
    Except.ok (ProcEntryOut.done
      { imports := p.imports, result := p.result, only := mergedOnly } false cache)

/-- `processEntrypoint` (source lines 367–440). -/
def processEntrypoint (env : Env) (cache : CacheState) (nextItem : NextItem) :
    Except String ProcEntryOut :=
  let code := nextItem.entrypoint.code
  let name := nextItem.entrypoint.name
  let only := nextItem.entrypoint.only
  let cache := invalidateIfChanged cache name code
  let cached := mapGet cache.codeCache name
  let mergedOnly :=
    match cached with
    | some c => jsSetOfList (c.only ++ only)
    | none => only
  match cached with
  | some c =>
    if isEqual c.only mergedOnly then
      let imports := if nextItem.stack.contains name then none else c.imports
      Except.ok (ProcEntryOut.done
        { imports := imports, result := c.result, only := mergedOnly } true cache)
    else
      let cache := { cache with evalCache := cache.evalCache.filter (fun k => ¬ k = name) }
      processEntrypointRecompute env cache nextItem mergedOnly
  | none => processEntrypointRecompute env cache nextItem mergedOnly

/-- One entry of the `resolvedImports` array handed to `processImports`. -/
structure ResolvedImport where
  (importsOnly : List String)
  (importedFile : String)
  resolved : Option String
deriving DecidableEq

/-- Enqueue on the FIFO work queue, recording the event.  Modelled from the
spec: `ModuleQueue` (`helpers/ModuleQueue`) is not under `src/`; spec §4.2
specifies first-in-first-out `enqueue`. -/
def enqueueItem (st : DriverState) (it : NextItem) : DriverState :=
  { st with queue := st.queue ++ [it],
            events := st.events ++ [DriverEvent.enqueued it.entrypoint.name] }

def batchGet (l : List (Nat × Batch)) (k : Nat) : Option Batch :=
  (l.find? (fun p => p.1 = k)).map (·.2)

def batchSet (l : List (Nat × Batch)) (k : Nat) (b : Batch) : List (Nat × Batch) :=
  l.map (fun p => if p.1 = k then (k, b) else p)

/-- The value written to the resolution cache for one edge (source lines
332–345): start from `new Set(importsOnly)`, add every token of the
comma-separated tail of the previously stored value (the part after the first
NUL), and store `` `${resolved}\0${[...set].join(',')}` ``. -/
def resolveCacheWriteValue (cachedVal : Option (List Char))
    (importsOnly : List (List Char)) (resolved : List Char) : List Char :=
  let importsOnlySet := jsSetOfList importsOnly
  let withCached :=
    match cachedVal with
    | none => importsOnlySet
    | some v =>
      match (splitOnChar nulChar v).get? 1 with
      | none => importsOnlySet
      | some cachedOnly => (splitOnChar ',' cachedOnly).foldl jsSetAdd importsOnlySet
  resolved ++ nulChar :: joinWithChar ',' withCached

/-- The requested-export names stored in a resolution-cache value, decoded the
way the source itself reads them back: the comma-separated tokens of the part
after the first NUL. -/
def resolveCacheNames (v : List Char) : List (List Char) :=
  match (splitOnChar nulChar v).get? 1 with
  | none => []
  | some s => splitOnChar ',' s

/-- The body of the `for (const {...} of resolvedImports)` loop of
`processImports` (source lines 321–363): skip unresolved edges, merge-write the
resolution cache, read the file, create the entrypoint, skip `'ignored'`
entrypoints, and enqueue the rest with the batch's `onEveryImport` callback. -/
def processImportsStep (env : Env) (po : PluginOptions) (parent : NextItem)
    (bid : Nat) (st : DriverState) (i : ResolvedImport) : DriverState :=
  match i.resolved with
  | none => st
  | some resolved =>
    let resolveCacheKey := parent.entrypoint.name ++ " -> " ++ i.importedFile
    let resolveCached := mapGet st.cache.resolveCache resolveCacheKey
    let newVal := resolveCacheWriteValue resolveCached
      (i.importsOnly.map String.toList) resolved.toList
    let st := { st with cache := { st.cache with
      resolveCache := mapSet st.cache.resolveCache resolveCacheKey newVal } }
    let fileContent := env.readFile resolved
    match createEntrypoint env po resolved i.importsOnly fileContent with
    | CreateEntrypointResult.ignored => st
    | CreateEntrypointResult.entry next =>
      enqueueItem st { entrypoint := next,
                       stack := parent.entrypoint.name :: parent.stack,
                       onSuccess := OnSuccess.everyImport bid }

/-- The flattened `allImports` array of `processImports` (source lines
272–278). -/
def importsOf (resolvedImports : List ResolvedImport) : List ImportRef :=
  resolvedImports.flatMap (fun i =>
    i.importsOnly.map (fun what =>
      { fromName := i.importedFile, what := what, file := i.resolved }))

/-- The state captured by a fresh `onEveryImport` closure (source lines
272–281): `allImports`, the empty collected `deadImports`, the `remaining`
set `new Set(allImports.map((i) => i.file))`, and the parent item. -/
def initialBatch (parent : NextItem) (resolvedImports : List ResolvedImport) : Batch :=
  { allImports := importsOf resolvedImports, deadImports := [],
    remaining := jsSetOfList ((importsOf resolvedImports).map (·.file)),
    parent := parent }

/-- `processImports` (source lines 259–364): allocate the batch (the closure
state of `onEveryImport`), then run the loop over `resolvedImports`. -/
def processImports (env : Env) (po : PluginOptions) (st : DriverState)
    (parent : NextItem) (resolvedImports : List ResolvedImport) : DriverState :=
  let bid := st.nextBatchId
  let st := { st with
    batches := st.batches ++ [(bid, initialBatch parent resolvedImports)],
    nextBatchId := bid + 1 }
  resolvedImports.foldl (processImportsStep env po parent bid) st

/-- The `result.deadExports.forEach(...)` part of `onEveryImport` (source lines
284–293): for each reported dead export, find the matching `allImports` entry
and append it to the collected dead imports. -/
def collectDeadImports (allImports : List ImportRef) (acc : List ImportRef)
    (entryName : String) (deadExports : List String) : List ImportRef :=
  deadExports.foldl (fun acc deadExport =>
    match allImports.find? (fun i => i.fromName == entryName && i.what == deadExport) with
    | some related => acc ++ [related]
    | none => acc) acc

/-- Invoking a success callback (source: `onEveryImport`, lines 282–319, plus
the no-op seed callback): delete the completed entrypoint from the batch's
`remaining` set, collect dead imports, and — only once `remaining` is empty and
something was collected — delete the parent's `codeCache` entry and re-enqueue
the parent with the collected `deadImports`, its own stack and callback. -/
def runOnSuccess (st : DriverState) (cb : OnSuccess) (entryName : String)
    (result : ITransformFileResult) : DriverState :=
  match cb with
  | OnSuccess.noop => st
  | OnSuccess.everyImport bid =>
    match batchGet st.batches bid with
    | none => st
    | some b =>
      let remaining := b.remaining.erase (some entryName)
      let collected := collectDeadImports b.allImports b.deadImports entryName
        result.deadExports
      let st := { st with
        batches := batchSet st.batches bid
          { b with remaining := remaining, deadImports := collected } }
      if remaining.isEmpty then
        if collected.isEmpty then st
        else
          let parent := b.parent
          let st := { st with cache := { st.cache with
            codeCache := mapDelete st.cache.codeCache parent.entrypoint.name } }
          enqueueItem st { entrypoint := { parent.entrypoint with deadImports := collected },
                           stack := parent.stack, onSuccess := parent.onSuccess }
      else st

/-- One entry of the `resolvedImports` mapping of `prepareForEvalSync` (source
lines 482–506): a resolver failure is caught and leaves `resolved` at `null`. -/
def resolveImportSync (resolve : String → String → List String → Except String String)
    (item : NextItem) (p : String × List String) : ResolvedImport :=
  match resolve p.1 item.entrypoint.name item.stack with
  | Except.ok r => { importedFile := p.1, importsOnly := p.2, resolved := some r }
  | Except.error _ => { importedFile := p.1, importsOnly := p.2, resolved := none }

/-- One iteration of the `while (!queue.isEmpty())` loop of
`prepareForEvalSync` (source lines 468–520): dequeue, process, resolve and
process imports, store the result, invoke the item's success callback. -/
def driveStep (env : Env) (po : PluginOptions)
    (resolve : String → String → List String → Except String String)
    (st : DriverState) : Except String DriverState :=
  match st.queue with
  | [] => Except.ok st
  | item :: rest =>
    let st := { st with queue := rest }
    match processEntrypoint env st.cache item with
    | Except.error e => Except.error e
    | Except.ok (ProcEntryOut.skip cache') => Except.ok { st with cache := cache' }
    | Except.ok (ProcEntryOut.done d _ cache') =>
      let st := { st with cache := cache' }
      let st :=
        match d.imports with
        | some importsList =>
          processImports env po st item (importsList.map (resolveImportSync resolve item))
        | none => st
      let st := { st with cache := { st.cache with
        codeCache := mapSet st.cache.codeCache item.entrypoint.name
          { imports := d.imports, only := d.only, result := d.result } } }
      let st := { st with events := st.events ++
        [DriverEvent.successInvoked item.entrypoint.name] }
      Except.ok (runOnSuccess st item.onSuccess item.entrypoint.name d.result)

/-- The driver loop, with explicit fuel (the source loops until the queue is
empty; termination is an emergent property, not needed for the claims). -/
def drive (env : Env) (po : PluginOptions)
    (resolve : String → String → List String → Except String String) :
    Nat → DriverState → Except String DriverState
  | 0, st => Except.ok st
  | Nat.succ fuel, st =>
    if st.queue.isEmpty then Except.ok st
    else
      match driveStep env po resolve st with
      | Except.error e => Except.error e
      | Except.ok st' => drive env po resolve fuel st'

def initialDriverState (cache : CacheState) : DriverState :=
  { cache := cache, queue := [], batches := [], nextBatchId := 0, events := [] }

/-- `prepareForEvalSync` (source lines 442–523): create the entrypoint, return
`undefined` (without creating a queue) when it is ignored, otherwise seed the
queue and drive it, returning the final cached result for the entry path. -/
def prepareForEvalSync (env : Env) (po : PluginOptions)
    (resolve : String → String → List String → Except String String)
    (fuel : Nat) (cache0 : CacheState) (name : String) (only : List String)
    (code : String) : Except String (Option ITransformFileResult × DriverState) :=
  match createEntrypoint env po name only code with
  | CreateEntrypointResult.ignored => Except.ok (none, initialDriverState cache0)
  | CreateEntrypointResult.entry entrypoint =>
    let st0 := { initialDriverState cache0 with
      queue := [{ entrypoint := entrypoint, stack := [], onSuccess := OnSuccess.noop }] }
    match drive env po resolve fuel st0 with
    | Except.error e => Except.error e
    | Except.ok st =>
      Except.ok ((mapGet st.cache.codeCache entrypoint.name).map (·.result), st)

/-! ## Helper lemmas: JS sets -/

theorem mem_jsSetAdd {α : Type} [DecidableEq α] (l : List α) (x y : α) :
    y ∈ jsSetAdd l x ↔ y ∈ l ∨ y = x := by
  unfold jsSetAdd
  split
  · rename_i h
    constructor
    · exact Or.inl
    · rintro (hy | rfl)
      · exact hy
      · exact h
  · simp

theorem nodup_jsSetAdd {α : Type} [DecidableEq α] (l : List α) (x : α)
    (h : l.Nodup) : (jsSetAdd l x).Nodup := by
  unfold jsSetAdd
  split
  · exact h
  · rename_i hx
    simp [List.nodup_append, h, hx]

theorem mem_foldl_jsSetAdd {α : Type} [DecidableEq α] (l : List α) :
    ∀ (acc : List α) (y : α), y ∈ l.foldl jsSetAdd acc ↔ y ∈ acc ∨ y ∈ l := by
  induction l with
  | nil => simp
  | cons x xs ih =>
    intro acc y
    simp only [List.foldl_cons, ih, mem_jsSetAdd, List.mem_cons]
    tauto

theorem nodup_foldl_jsSetAdd {α : Type} [DecidableEq α] (l : List α) :
    ∀ acc : List α, acc.Nodup → (l.foldl jsSetAdd acc).Nodup := by
  induction l with
  | nil => exact fun acc h => h
  | cons x xs ih =>
    intro acc h
    exact ih (jsSetAdd acc x) (nodup_jsSetAdd acc x h)

theorem mem_jsSetOfList {α : Type} [DecidableEq α] (l : List α) (y : α) :
    y ∈ jsSetOfList l ↔ y ∈ l := by
  unfold jsSetOfList
  simp [mem_foldl_jsSetAdd]

theorem nodup_jsSetOfList {α : Type} [DecidableEq α] (l : List α) :
    (jsSetOfList l).Nodup :=
  nodup_foldl_jsSetAdd l [] List.nodup_nil

/-! ## Helper lemmas: character-level split/join -/

theorem splitOnChar_ne_nil (sep : Char) (l : List Char) : splitOnChar sep l ≠ [] := by
  cases l with
  | nil => simp [splitOnChar]
  | cons c rest =>
    unfold splitOnChar
    split
    · simp
    · split
      · simp
      · simp

theorem sep_not_mem_of_mem_splitOnChar (sep : Char) (l : List Char) :
    ∀ p ∈ splitOnChar sep l, sep ∉ p := by
  induction l with
  | nil =>
    intro p hp
    simp [splitOnChar] at hp
    simp [hp]
  | cons c rest ih =>
    intro p hp
    unfold splitOnChar at hp
    by_cases hc : c = sep
    · simp [hc] at hp
      rcases hp with hp | hp
      · simp [hp]
      · exact ih p hp
    · simp [hc] at hp
      rcases h : splitOnChar sep rest with _ | ⟨q, qs⟩
      · exact absurd h (splitOnChar_ne_nil sep rest)
      · rw [h] at hp
        simp at hp
        rcases hp with hp | hp
        · subst hp
          intro hmem
          rcases List.mem_cons.mp hmem with h1 | h1
          · exact hc h1.symm
          · exact ih q (by simp [h]) h1
        · exact ih p (by simp [h, hp])

theorem splitOnChar_of_not_mem (sep : Char) (l : List Char) (h : sep ∉ l) :
    splitOnChar sep l = [l] := by
  induction l with
  | nil => simp [splitOnChar]
  | cons c rest ih =>
    have hc : ¬ c = sep := fun hcs => h (by simp [hcs])
    have hrest : sep ∉ rest := fun hs => h (by simp [hs])
    unfold splitOnChar
    simp [hc, ih hrest]

theorem splitOnChar_cons (sep c : Char) (rest : List Char) :
    splitOnChar sep (c :: rest) =
      if c = sep then [] :: splitOnChar sep rest
      else
        match splitOnChar sep rest with
        | [] => [[c]]
        | p :: ps => (c :: p) :: ps := rfl

theorem splitOnChar_append (sep : Char) (a b : List Char) (ha : sep ∉ a) :
    splitOnChar sep (a ++ sep :: b) = a :: splitOnChar sep b := by
  induction a with
  | nil =>
    simp [List.nil_append, splitOnChar_cons]
  | cons c a' ih =>
    have hc : ¬ c = sep := fun hcs => ha (by simp [hcs])
    have ha' : sep ∉ a' := fun hs => ha (by simp [hs])
    simp only [List.cons_append, splitOnChar_cons, if_neg hc, ih ha']

theorem splitOnChar_joinWithChar (sep : Char) (ps : List (List Char))
    (hne : ps ≠ []) (h : ∀ p ∈ ps, sep ∉ p) :
    splitOnChar sep (joinWithChar sep ps) = ps := by
  induction ps with
  | nil => exact absurd rfl hne
  | cons p ps ih =>
    cases ps with
    | nil =>
      simp only [joinWithChar]
      exact splitOnChar_of_not_mem sep p (h p (by simp))
    | cons q qs =>
      have hjoin : joinWithChar sep (p :: q :: qs) = p ++ sep :: joinWithChar sep (q :: qs) := rfl
      rw [hjoin, splitOnChar_append sep p _ (h p (by simp))]
      rw [ih (by simp) (fun r hr => h r (by simp [hr]))]

theorem not_mem_joinWithChar (sep c : Char) (ps : List (List Char))
    (hc : ¬ c = sep) (h : ∀ p ∈ ps, c ∉ p) : c ∉ joinWithChar sep ps := by
  induction ps with
  | nil => simp [joinWithChar]
  | cons p ps ih =>
    cases ps with
    | nil =>
      simp only [joinWithChar]
      exact h p (by simp)
    | cons q qs =>
      have hjoin : joinWithChar sep (p :: q :: qs) = p ++ sep :: joinWithChar sep (q :: qs) := rfl
      rw [hjoin]
      intro hmem
      rcases List.mem_append.mp hmem with h1 | h1
      · exact h p (by simp) h1
      · rcases List.mem_cons.mp h1 with h2 | h2
        · exact hc h2
        · exact ih (fun r hr => h r (by simp [hr])) h2

/-! ## Helper lemmas: sorting and `isEqual` -/

theorem sortStr_perm (l : List String) : (sortStr l).Perm l :=
  List.mergeSort_perm l _

theorem sortStr_sorted (l : List String) : List.Sorted (· ≤ ·) (sortStr l) := by
  have h := @List.sorted_mergeSort String (fun a b : String => decide (a ≤ b))
    (fun a b c h₁ h₂ => by
      simp only [decide_eq_true_eq] at *
      exact le_trans h₁ h₂)
    (fun a b => by
      simp only [Bool.or_eq_true, decide_eq_true_eq]
      exact le_total a b)
    l
  unfold sortStr
  exact List.Pairwise.imp (fun hab => by simpa using hab) h

theorem sortStr_eq_iff (a b : List String) : sortStr a = sortStr b ↔ a.Perm b := by
  constructor
  · intro h
    exact (sortStr_perm a).symm.trans (h ▸ sortStr_perm b)
  · intro h
    exact List.eq_of_perm_of_sorted
      (((sortStr_perm a).trans h).trans (sortStr_perm b).symm)
      (sortStr_sorted a) (sortStr_sorted b)

theorem isEqual_true_iff (a b : List String) :
    isEqual a b = true ↔ "*" ∈ a ∨ a.Perm b := by
  unfold isEqual
  split
  · rename_i h
    have h' : "*" ∈ a := by simpa using h
    simp [h']
  · rename_i h
    have h' : "*" ∉ a := by simpa using h
    split
    · rename_i hlen
      simp only [Bool.false_eq_true, false_iff]
      rintro (hs | hp)
      · exact h' hs
      · exact hlen hp.length_eq
    · rename_i hlen
      simp only [decide_eq_true_eq, sortStr_eq_iff]
      constructor
      · exact Or.inr
      · rintro (hs | hp)
        · exact absurd hs h'
        · exact hp

theorem mem_of_mem_splitOnChar (sep : Char) (l : List Char) :
    ∀ p ∈ splitOnChar sep l, ∀ c ∈ p, c ∈ l := by
  induction l with
  | nil =>
    intro p hp c hc
    simp [splitOnChar] at hp
    subst hp
    simp at hc
  | cons x rest ih =>
    intro p hp c hc
    rw [splitOnChar_cons] at hp
    by_cases hx : x = sep
    · simp [hx] at hp
      rcases hp with hp | hp
      · subst hp; simp at hc
      · exact List.mem_cons_of_mem x (ih p hp c hc)
    · simp [hx] at hp
      rcases h : splitOnChar sep rest with _ | ⟨q, qs⟩
      · exact absurd h (splitOnChar_ne_nil sep rest)
      · rw [h] at hp
        simp at hp
        rcases hp with hp | hp
        · subst hp
          rcases List.mem_cons.mp hc with h1 | h1
          · simp [h1]
          · exact List.mem_cons_of_mem x (ih q (by simp [h]) c h1)
        · exact List.mem_cons_of_mem x (ih p (by simp [h, hp]) c hc)

/-! ## Claim C10 -/

/-- **C10.** For every entrypoint whose parse configuration contains a
module-resolver plugin (an object plugin whose `key` is `'module-resolver'`),
the transform plugin list built by `runPreevalStage` places that module-resolver
plugin before the preeval plugin; when no such plugin is present, the list
contains only the preeval plugin. -/
theorem moduleResolver_runs_before_preeval (pc : ParseConfig) :
    ((∃ p ∈ pc.plugins.getD [], isModuleResolver p = true) →
      ∃ p, isModuleResolver p = true ∧ p ∈ pc.plugins.getD [] ∧
        buildTransformPlugins pc = [p, preevalPlugin]) ∧
    ((∀ p ∈ pc.plugins.getD [], isModuleResolver p = false) →
      buildTransformPlugins pc = [preevalPlugin]) := by
  constructor
  · rintro ⟨p, hmem, hmr⟩
    rcases hfind : (pc.plugins.getD []).find? isModuleResolver with _ | q
    · exact absurd (List.find?_eq_none.mp hfind p hmem) (by simp [hmr])
    · refine ⟨q, List.find?_some hfind, List.mem_of_find?_eq_some hfind, ?_⟩
      unfold buildTransformPlugins
      rw [hfind]
  · intro hall
    rcases hfind : (pc.plugins.getD []).find? isModuleResolver with _ | q
    · unfold buildTransformPlugins
      rw [hfind]
    · have h1 := List.find?_some hfind
      have h2 := hall q (List.mem_of_find?_eq_some hfind)
      rw [h2] at h1
      exact absurd h1 (by simp)

/-- Witness for C10 at a concrete parse config with and without a
module-resolver plugin. -/
theorem moduleResolver_runs_before_preeval_witness :
    buildTransformPlugins { plugins := some [PluginItem.obj (some "module-resolver")], tag := "" } =
      [PluginItem.obj (some "module-resolver"), preevalPlugin] ∧
    buildTransformPlugins { plugins := none, tag := "" } = [preevalPlugin] := by
  constructor
  · obtain ⟨p, hmr, hmem, heq⟩ :=
      (moduleResolver_runs_before_preeval
        { plugins := some [PluginItem.obj (some "module-resolver")], tag := "" }).1
      ⟨PluginItem.obj (some "module-resolver"), by simp, by simp [isModuleResolver]⟩
    have : p = PluginItem.obj (some "module-resolver") := by simpa using hmem
    rw [this] at heq
    exact heq
  · exact (moduleResolver_runs_before_preeval { plugins := none, tag := "" }).2
      (by intro p hp; simp at hp)

/-! ## Claim C6 -/

/-- **C6.** For every entrypoint whose requested-export list is exactly
`['__linariaPreval']` and whose pre-pass transform result carries no linaria
metadata, `prepareCode` returns the pre-pass tree and source unchanged, with a
null imports map, null exports and an empty dead-exports list, and the
evaluator is not invoked (`evaluatorInvoked := false`). -/
theorem prepareCode_preval_short_circuit (env : Env) (item : IEntrypoint)
    (originalAst : BFile) (pre : BabelFileResult)
    (honly : item.only = ["__linariaPreval"])
    (hpre : runPreevalStage env item originalAst = Except.ok pre)
    (hmeta : withLinariaMetadata pre.metadata = false) :
    prepareCode env item originalAst = Except.ok
      { ast := getAstBang pre, code := pre.code, imports := none, exports := none,
        deadExports := [], metadata := pre.metadata, evaluatorInvoked := false } := by
  unfold prepareCode
  rw [hpre]
  simp [honly, hmeta]

/-- Witness for C6: a concrete entrypoint requesting only `__linariaPreval`
whose pre-pass result has no metadata is passed through unchanged. -/
theorem prepareCode_preval_short_circuit_witness :
    prepareCode
      { extname := fun _ => ".js",
        parseFile := fun _ _ _ => { tag := "parsed", program := some () },
        transformFromAst := fun _ _ _ _ =>
          some { ast := some { tag := "pre", program := some () },
                 code := "PRECODE", metadata := none },
        requireEvaluator := fun _ _ => fun _ a c _ =>
          { ast := a, code := c, imports := none, exports := none, deadExports := none },
        readFile := fun _ => "",
        dirname := fun _ => "",
        buildParseConfig := fun g _ _ => g }
      { code := "SRC",
        evaluator := fun _ a _ _ =>
          { ast := a, code := "EVAL", imports := none, exports := none, deadExports := none },
        name := "/a.js", only := ["__linariaPreval"],
        parseConfig := { plugins := none, tag := "" }, deadImports := [] }
      { tag := "orig", program := some () } =
    Except.ok
      { ast := { tag := "pre", program := some () }, code := "PRECODE", imports := none,
        exports := none, deadExports := [], metadata := none, evaluatorInvoked := false } :=
  prepareCode_preval_short_circuit _ _ _
    { ast := some { tag := "pre", program := some () }, code := "PRECODE", metadata := none }
    rfl rfl rfl

/-! ## Claim C9 -/

/-- The condition under which `runPreevalStage` throws: no transform result, or
a result without `ast`, or an `ast` without `program`. -/
def isBadTransformResult (r : Option BabelFileResult) : Bool :=
  match r with
  | none => true
  | some x =>
    match x.ast with
    | none => true
    | some f => f.program.isNone

theorem runPreevalStage_error_of_bad (env : Env) (item : IEntrypoint) (ast : BFile)
    (h : isBadTransformResult
      (env.transformFromAst (buildTransformPlugins item.parseConfig)
        item.name ast item.code) = true) :
    runPreevalStage env item ast = Except.error "Babel transform failed" := by
  unfold runPreevalStage
  rcases hr : env.transformFromAst (buildTransformPlugins item.parseConfig)
      item.name ast item.code with _ | x
  · rfl
  · rw [hr] at h
    unfold isBadTransformResult at h
    simp only at h
    rcases hast : x.ast with _ | f
    · simp [hast]
    · simp only [hast] at h
      rcases hprog : f.program with _ | u
      · simp [hast, hprog]
      · simp [hprog] at h

/-- The empty cache collection (a cold cache). -/
def emptyCacheState : CacheState :=
  { originalAST := [], codeCache := [], evalCache := [], resolveCache := [], sources := [] }

/-- **C9.** For every file whose pre-pass transform yields no result or a
result without a program tree, `runPreevalStage` throws, so `prepareCode`
fails for that file, and on a cold cache the failure propagates out of the
driver for the whole request instead of being recovered. -/
theorem preeval_failure_propagates (env : Env) (po : PluginOptions)
    (resolve : String → String → List String → Except String String)
    (fuel : Nat) (name : String) (only : List String) (code : String)
    (e : IEntrypoint)
    (hce : createEntrypoint env po name only code = CreateEntrypointResult.entry e)
    (hbad : ∀ (plugins : List PluginItem) (ast : BFile) (c : String),
      isBadTransformResult (env.transformFromAst plugins e.name ast c) = true) :
    (∀ (item : IEntrypoint) (ast : BFile),
      isBadTransformResult
        (env.transformFromAst (buildTransformPlugins item.parseConfig)
          item.name ast item.code) = true →
      runPreevalStage env item ast = Except.error "Babel transform failed") ∧
    prepareForEvalSync env po resolve (fuel + 1) emptyCacheState name only code =
      Except.error "Babel transform failed" := by
  refine ⟨fun item ast h => runPreevalStage_error_of_bad env item ast h, ?_⟩
  have hprep : ∀ (it : IEntrypoint) (ast : BFile), it.name = e.name →
      prepareCode env it ast = Except.error "Babel transform failed" := by
    intro it ast hname
    unfold prepareCode
    rw [runPreevalStage_error_of_bad env it ast (by rw [hname]; exact hbad _ ast it.code)]
  have hpq : ∀ (it : IEntrypoint) (cache : CacheState), it.name = e.name →
      processQueueItem env (some it) cache = Except.error "Babel transform failed" := by
    intro it cache hname
    unfold processQueueItem
    have hprep' := fun ast => hprep it ast hname
    simp only [hprep']
  have hpe : ∀ (ni : NextItem), ni.entrypoint.name = e.name →
      processEntrypoint env emptyCacheState ni = Except.error "Babel transform failed" := by
    intro ni hname
    unfold processEntrypoint
    simp only [invalidateIfChanged, emptyCacheState, mapGet, List.find?_nil, Option.map_none']
    unfold processEntrypointRecompute
    rw [hpq _ _ hname]
  have hstep : driveStep env po resolve
      { cache := emptyCacheState,
        queue := [{ entrypoint := e, stack := [], onSuccess := OnSuccess.noop }],
        batches := [], nextBatchId := 0, events := [] } =
      Except.error "Babel transform failed" := by
    unfold driveStep
    simp only []
    rw [hpe { entrypoint := e, stack := [], onSuccess := OnSuccess.noop } rfl]
  have hdrive : drive env po resolve (fuel + 1)
      { cache := emptyCacheState,
        queue := [{ entrypoint := e, stack := [], onSuccess := OnSuccess.noop }],
        batches := [], nextBatchId := 0, events := [] } =
      Except.error "Babel transform failed" := by
    unfold drive
    simp only [List.isEmpty_cons, Bool.false_eq_true, if_false]
    rw [hstep]
  unfold prepareForEvalSync
  rw [hce]
  simp only [initialDriverState]
  rw [hdrive]

/-- A concrete evaluator used by the C9 witness. -/
def evalW9 : EvaluatorFn := fun _ a c _ =>
  { ast := a, code := c, imports := none, exports := none, deadExports := none }

/-- A concrete environment whose babel transform always yields no result. -/
def envW9 : Env :=
  { extname := fun _ => ".js",
    parseFile := fun _ _ _ => { tag := "p", program := some () },
    transformFromAst := fun _ _ _ _ => none,
    requireEvaluator := fun _ _ => evalW9,
    readFile := fun _ => "",
    dirname := fun _ => "",
    buildParseConfig := fun _ _ _ => { plugins := none, tag := "" } }

/-- Concrete plugin options used by the C9 witness. -/
def poW9 : PluginOptions :=
  { extensions := [".js"],
    rules := [{ test := none, action := RuleAction.evaluatorFn evalW9, babelOptions := none }],
    babelOptions := { plugins := none, tag := "" } }

/-- Witness for C9: with a transform that always yields no result, a concrete
request errors out of the driver. -/
theorem preeval_failure_propagates_witness :
    prepareForEvalSync envW9 poW9 (fun _ _ _ => Except.ok "") 1 emptyCacheState
      "/a.js" ["x"] "SRC" = Except.error "Babel transform failed" :=
  (preeval_failure_propagates envW9 poW9 (fun _ _ _ => Except.ok "") 0 "/a.js" ["x"] "SRC"
    { code := "SRC", evaluator := evalW9, name := "/a.js", only := ["x"],
      parseConfig := { plugins := none, tag := "" }, deadImports := [] }
    rfl (fun _ _ _ => rfl)).2

/-! ## Claim C3 -/

/-- **C3 (amended).** For every resolution-cache edge whose stored value is well-formed
(it contains the NUL separator, as every value written by this code does) and
whose incoming requested-export names are free of the two separator characters
(as JavaScript identifier names are), the requested-export set stored after the
write decodes to exactly the union of the previously stored set and the newly
requested set, and in particular no previously stored export name is ever lost
by a later write to the same edge. -/
theorem resolveCache_set_unions (v resolved : List Char)
    (importsOnly : List (List Char)) (w : List Char)
    (hw : (splitOnChar nulChar v).get? 1 = some w)
    (hres : nulChar ∉ resolved)
    (hnames : ∀ n ∈ importsOnly, nulChar ∉ n ∧ ',' ∉ n) :
    (∀ t, t ∈ resolveCacheNames (resolveCacheWriteValue (some v) importsOnly resolved) ↔
      t ∈ importsOnly ∨ t ∈ resolveCacheNames v) ∧
    (∀ t ∈ resolveCacheNames v,
      t ∈ resolveCacheNames (resolveCacheWriteValue (some v) importsOnly resolved)) := by
  have hwmem : w ∈ splitOnChar nulChar v := List.get?_mem hw
  have hwnul : nulChar ∉ w := sep_not_mem_of_mem_splitOnChar nulChar v w hwmem
  have hmemS : ∀ t, t ∈ (splitOnChar ',' w).foldl jsSetAdd (jsSetOfList importsOnly) ↔
      t ∈ importsOnly ∨ t ∈ splitOnChar ',' w := by
    intro t
    rw [mem_foldl_jsSetAdd, mem_jsSetOfList]
  have hSnul : ∀ t ∈ (splitOnChar ',' w).foldl jsSetAdd (jsSetOfList importsOnly),
      nulChar ∉ t := by
    intro t ht
    rcases (hmemS t).mp ht with h1 | h1
    · exact (hnames t h1).1
    · intro hc
      exact hwnul (mem_of_mem_splitOnChar ',' w t h1 nulChar hc)
  have hScomma : ∀ t ∈ (splitOnChar ',' w).foldl jsSetAdd (jsSetOfList importsOnly),
      ',' ∉ t := by
    intro t ht
    rcases (hmemS t).mp ht with h1 | h1
    · exact (hnames t h1).2
    · exact sep_not_mem_of_mem_splitOnChar ',' w t h1
  have hSne : (splitOnChar ',' w).foldl jsSetAdd (jsSetOfList importsOnly) ≠ [] := by
    rcases htoks : splitOnChar ',' w with _ | ⟨t0, ts⟩
    · exact absurd htoks (splitOnChar_ne_nil ',' w)
    · intro hempty
      have ht0 : t0 ∈ (splitOnChar ',' w).foldl jsSetAdd (jsSetOfList importsOnly) :=
        (hmemS t0).mpr (Or.inr (by simp [htoks]))
      rw [htoks, hempty] at ht0
      simp at ht0
  have hjoin_nul : nulChar ∉ joinWithChar ','
      ((splitOnChar ',' w).foldl jsSetAdd (jsSetOfList importsOnly)) :=
    not_mem_joinWithChar ',' nulChar _ (by decide) hSnul
  have hnew : resolveCacheWriteValue (some v) importsOnly resolved =
      resolved ++ nulChar :: joinWithChar ','
        ((splitOnChar ',' w).foldl jsSetAdd (jsSetOfList importsOnly)) := by
    unfold resolveCacheWriteValue
    simp only [hw]
  have hdecode_new :
      resolveCacheNames (resolveCacheWriteValue (some v) importsOnly resolved) =
      (splitOnChar ',' w).foldl jsSetAdd (jsSetOfList importsOnly) := by
    rw [hnew]
    unfold resolveCacheNames
    rw [splitOnChar_append nulChar resolved _ hres,
        splitOnChar_of_not_mem nulChar _ hjoin_nul]
    exact splitOnChar_joinWithChar ',' _ hSne hScomma
  have hdecode_old : resolveCacheNames v = splitOnChar ',' w := by
    unfold resolveCacheNames
    rw [hw]
  refine ⟨?_, ?_⟩
  · intro t
    rw [hdecode_new, hdecode_old]
    exact hmemS t
  · intro t ht
    rw [hdecode_new]
    rw [hdecode_old] at ht
    exact (hmemS t).mpr (Or.inr ht)

/-- Counterexample to C3 as stated (universally over arbitrary export names):
the cache value is a flat string `"{resolved}\0{names joined by commas}"`, so a
newly requested name containing the NUL separator truncates the stored tail on
the next read — the previously stored name `a` is lost — and a name containing
a comma is split into two tokens, so the stored set is not the union either. -/
theorem resolveCache_set_unions_counterexample :
    ("a".toList ∈ resolveCacheNames ("r".toList ++ nulChar :: "a".toList)) ∧
    "a".toList ∉ resolveCacheNames (resolveCacheWriteValue
      (some ("r".toList ++ nulChar :: "a".toList))
      [("b".toList ++ nulChar :: "c".toList)] "r".toList) ∧
    "a,b".toList ∉ resolveCacheNames (resolveCacheWriteValue
      (some ("r".toList ++ nulChar :: "x".toList)) ["a,b".toList] "r".toList) := by
  refine ⟨by decide, by decide, by decide⟩

/-- Witness for C3 at a concrete edge: previously stored names `x,y`, newly
requested `["a"]`; after the write all of `a`, `x`, `y` are stored. -/
theorem resolveCache_set_unions_witness :
    "x".toList ∈ resolveCacheNames (resolveCacheWriteValue
      (some ("/r".toList ++ nulChar :: "x,y".toList)) ["a".toList] "/r".toList) ∧
    "a".toList ∈ resolveCacheNames (resolveCacheWriteValue
      (some ("/r".toList ++ nulChar :: "x,y".toList)) ["a".toList] "/r".toList) := by
  have h := resolveCache_set_unions ("/r".toList ++ nulChar :: "x,y".toList)
    "/r".toList ["a".toList] "x,y".toList (by decide) (by decide) (by decide)
  constructor
  · exact h.2 "x".toList (by decide)
  · exact (h.1 "a".toList).mpr (Or.inl (by decide))

/-! ## Claim C5 -/

theorem createEntrypoint_entry_fields (env : Env) (po : PluginOptions)
    (name : String) (only : List String) (code : String) (e : IEntrypoint)
    (h : createEntrypoint env po name only code = CreateEntrypointResult.entry e) :
    e.name = name ∧ e.only = only ∧ e.code = code := by
  unfold createEntrypoint at h
  dsimp only at h
  split at h
  · cases h
  · split at h
    · cases h
    · cases h
      exact ⟨rfl, rfl, rfl⟩
    · cases h
      exact ⟨rfl, rfl, rfl⟩

/-- Whether `createEntrypoint` yields the ignored marker does not depend on the
requested-export list: the decision reads only the extension allow-list and the
matched rule. -/
theorem createEntrypoint_ignored_only_irrelevant (env : Env) (po : PluginOptions)
    (name code : String) (o₁ o₂ : List String)
    (h : createEntrypoint env po name o₁ code = CreateEntrypointResult.ignored) :
    createEntrypoint env po name o₂ code = CreateEntrypointResult.ignored := by
  unfold createEntrypoint at h ⊢
  dsimp only at h ⊢
  split at h
  · rename_i hext
    rw [if_pos hext]
  · rename_i hext
    rw [if_neg hext]
    split at h
    · rfl
    · cases h
    · cases h

theorem processImportsStep_queue_sub (env : Env) (po : PluginOptions)
    (parent : NextItem) (bid : Nat) (st : DriverState) (i : ResolvedImport) :
    ∀ it ∈ (processImportsStep env po parent bid st i).queue,
      it ∈ st.queue ∨ ∃ r e, i.resolved = some r ∧
        createEntrypoint env po r i.importsOnly (env.readFile r) =
          CreateEntrypointResult.entry e ∧
        it = { entrypoint := e, stack := parent.entrypoint.name :: parent.stack,
               onSuccess := OnSuccess.everyImport bid } := by
  intro it hit
  unfold processImportsStep at hit
  rcases hres : i.resolved with _ | r
  · rw [hres] at hit
    exact Or.inl hit
  · rw [hres] at hit
    simp only at hit
    rcases hce : createEntrypoint env po r i.importsOnly (env.readFile r) with _ | e
    · rw [hce] at hit
      exact Or.inl hit
    · rw [hce] at hit
      unfold enqueueItem at hit
      simp only [List.mem_append, List.mem_singleton] at hit
      rcases hit with hit | hit
      · exact Or.inl hit
      · exact Or.inr ⟨r, e, rfl, hce, hit⟩

theorem foldl_processImportsStep_queue_sub (env : Env) (po : PluginOptions)
    (parent : NextItem) (bid : Nat) (l : List ResolvedImport) :
    ∀ (st : DriverState), ∀ it ∈ (l.foldl (processImportsStep env po parent bid) st).queue,
      it ∈ st.queue ∨ ∃ i ∈ l, ∃ r e, i.resolved = some r ∧
        createEntrypoint env po r i.importsOnly (env.readFile r) =
          CreateEntrypointResult.entry e ∧
        it = { entrypoint := e, stack := parent.entrypoint.name :: parent.stack,
               onSuccess := OnSuccess.everyImport bid } := by
  induction l with
  | nil =>
    intro st it hit
    exact Or.inl hit
  | cons x xs ih =>
    intro st it hit
    rcases ih (processImportsStep env po parent bid st x) it hit with h | h
    · rcases processImportsStep_queue_sub env po parent bid st x it h with h1 | h1
      · exact Or.inl h1
      · obtain ⟨r, e, h2, h3, h4⟩ := h1
        exact Or.inr ⟨x, by simp, r, e, h2, h3, h4⟩
    · obtain ⟨i, hi, rest⟩ := h
      exact Or.inr ⟨i, by simp [hi], rest⟩

theorem processImports_queue_sub (env : Env) (po : PluginOptions) (st : DriverState)
    (parent : NextItem) (resolvedImports : List ResolvedImport) :
    ∀ it ∈ (processImports env po st parent resolvedImports).queue,
      it ∈ st.queue ∨ ∃ i ∈ resolvedImports, ∃ r e, i.resolved = some r ∧
        createEntrypoint env po r i.importsOnly (env.readFile r) =
          CreateEntrypointResult.entry e ∧
        it = { entrypoint := e, stack := parent.entrypoint.name :: parent.stack,
               onSuccess := OnSuccess.everyImport st.nextBatchId } := by
  intro it hit
  unfold processImports at hit
  dsimp only at hit
  rcases foldl_processImportsStep_queue_sub env po parent st.nextBatchId
    resolvedImports _ it hit with h | h
  · exact Or.inl h
  · exact Or.inr h

/-- **C5.** `createEntrypoint` returns the ignored marker whenever the path's
extension is not in the allow-list or the matched rule's action is `'ignore'`;
an ignored entry makes the driver return `undefined` with no queue ever
created (the returned driver state is the untouched initial one); and
`processImports` never enqueues an import whose entrypoint creation is
ignored. -/
theorem ignored_file_never_enqueued (env : Env) (po : PluginOptions) :
    (∀ (name : String) (only : List String) (code : String),
      (¬ po.extensions.contains (env.extname name) = true ∨
        (getMatchedRule po.rules name code).action = RuleAction.ignoreAction) →
      createEntrypoint env po name only code = CreateEntrypointResult.ignored) ∧
    (∀ (resolve : String → String → List String → Except String String)
        (fuel : Nat) (cache0 : CacheState) (name : String) (only : List String)
        (code : String),
      createEntrypoint env po name only code = CreateEntrypointResult.ignored →
      prepareForEvalSync env po resolve fuel cache0 name only code =
        Except.ok (none, initialDriverState cache0)) ∧
    (∀ (st : DriverState) (parent : NextItem)
        (resolvedImports : List ResolvedImport) (r : String) (o₀ : List String),
      createEntrypoint env po r o₀ (env.readFile r) = CreateEntrypointResult.ignored →
      ∀ it ∈ (processImports env po st parent resolvedImports).queue,
        it ∈ st.queue ∨ it.entrypoint.name ≠ r) := by
  refine ⟨?_, ?_, ?_⟩
  · intro name only code h
    unfold createEntrypoint
    rcases h with h | h
    · rw [if_pos h]
    · by_cases hext : ¬ po.extensions.contains (env.extname name) = true
      · rw [if_pos hext]
      · rw [if_neg hext]
        simp only [h]
  · intro resolve fuel cache0 name only code h
    unfold prepareForEvalSync
    rw [h]
  · intro st parent resolvedImports r o₀ hign it hit
    rcases processImports_queue_sub env po st parent resolvedImports it hit with h | h
    · exact Or.inl h
    · obtain ⟨i, _, r', e, _, hce, hform⟩ := h
      right
      intro hname
      have hename : e.name = r' := (createEntrypoint_entry_fields env po r' i.importsOnly
        (env.readFile r') e hce).1
      have : r' = r := by
        rw [hform] at hname
        simp only at hname
        rw [← hename, hname]
      rw [this] at hce
      rw [createEntrypoint_ignored_only_irrelevant env po r (env.readFile r) o₀
        i.importsOnly hign] at hce
      cases hce

/-- Witness for C5: a `.css` file under a `.js`-only extension allow-list is
ignored and the driver returns `undefined` with the untouched initial state. -/
theorem ignored_file_never_enqueued_witness :
    createEntrypoint
      { extname := fun _ => ".css",
        parseFile := fun _ _ _ => { tag := "p", program := some () },
        transformFromAst := fun _ _ _ _ => none,
        requireEvaluator := fun _ _ => fun _ a c _ =>
          { ast := a, code := c, imports := none, exports := none, deadExports := none },
        readFile := fun _ => "",
        dirname := fun _ => "",
        buildParseConfig := fun _ _ _ => { plugins := none, tag := "" } }
      { extensions := [".js"], rules := [],
        babelOptions := { plugins := none, tag := "" } }
      "vendor.css" ["*"] "body {}" = CreateEntrypointResult.ignored ∧
    prepareForEvalSync
      { extname := fun _ => ".css",
        parseFile := fun _ _ _ => { tag := "p", program := some () },
        transformFromAst := fun _ _ _ _ => none,
        requireEvaluator := fun _ _ => fun _ a c _ =>
          { ast := a, code := c, imports := none, exports := none, deadExports := none },
        readFile := fun _ => "",
        dirname := fun _ => "",
        buildParseConfig := fun _ _ _ => { plugins := none, tag := "" } }
      { extensions := [".js"], rules := [],
        babelOptions := { plugins := none, tag := "" } }
      (fun _ _ _ => Except.ok "") 7 emptyCacheState "vendor.css" ["*"] "body {}" =
      Except.ok (none, initialDriverState emptyCacheState) := by
  have h := ignored_file_never_enqueued
    { extname := fun _ => ".css",
      parseFile := fun _ _ _ => { tag := "p", program := some () },
      transformFromAst := fun _ _ _ _ => none,
      requireEvaluator := fun _ _ => fun _ a c _ =>
        { ast := a, code := c, imports := none, exports := none, deadExports := none },
      readFile := fun _ => "",
      dirname := fun _ => "",
      buildParseConfig := fun _ _ _ => { plugins := none, tag := "" } }
    { extensions := [".js"], rules := [],
      babelOptions := { plugins := none, tag := "" } }
  have h1 := h.1 "vendor.css" ["*"] "body {}" (Or.inl (by decide))
  exact ⟨h1, h.2.1 (fun _ _ _ => Except.ok "") 7 emptyCacheState "vendor.css" ["*"]
    "body {}" h1⟩

/-! ## Claim C7 -/

/-- `invalidateIfChanged` is the identity when the stored source matches. -/
theorem invalidateIfChanged_id (cache : CacheState) (name code : String)
    (h : mapGet cache.sources name = some code) :
    invalidateIfChanged cache name code = cache := by
  unfold invalidateIfChanged
  rw [h]
  simp

/-- The AST used by `processQueueItem`:
`cache.originalASTCache.get(name) ?? parseFile(babel, name, code, parseConfig)`
(source lines 156–158). -/
def parsedAstFor (env : Env) (cache : CacheState) (it : IEntrypoint) : BFile :=
  (mapGet cache.originalAST it.name).getD (env.parseFile it.name it.code it.parseConfig)

/-- **C7.** For every dequeued item (here: forced to recompute, with unchanged
source and no cached result) whose transform pipeline produces the empty
string, the item is dropped entirely: `processQueueItem` returns nothing and
writes no result-cache entry, and the driver step succeeds with only the queue
popped and the parsed-AST cache updated — the result cache, eval cache,
resolution cache, batches and event log (hence success callbacks and enqueues)
are untouched, and this is not an error. -/
theorem empty_output_drops_item (env : Env) (po : PluginOptions)
    (resolve : String → String → List String → Except String String)
    (st : DriverState) (item : NextItem) (rest : List NextItem)
    (hqueue : st.queue = item :: rest)
    (hsrc : mapGet st.cache.sources item.entrypoint.name = some item.entrypoint.code)
    (hnc : mapGet st.cache.codeCache item.entrypoint.name = none)
    (hempty : ∀ ast, ∃ p, prepareCode env item.entrypoint ast = Except.ok p ∧
      p.code = "") :
    (∀ (it : IEntrypoint) (cache : CacheState),
      (∀ ast, ∃ p, prepareCode env it ast = Except.ok p ∧ p.code = "") →
      processQueueItem env (some it) cache = Except.ok (none,
        { cache with
            originalAST := mapSet cache.originalAST it.name (parsedAstFor env cache it) })) ∧
    driveStep env po resolve st = Except.ok
      { st with
          queue := rest,
          cache := { st.cache with
            originalAST := mapSet st.cache.originalAST item.entrypoint.name
              (parsedAstFor env st.cache item.entrypoint) } } := by
  have hpq : ∀ (it : IEntrypoint) (cache : CacheState),
      (∀ ast, ∃ p, prepareCode env it ast = Except.ok p ∧ p.code = "") →
      processQueueItem env (some it) cache = Except.ok (none,
        { cache with
            originalAST := mapSet cache.originalAST it.name (parsedAstFor env cache it) }) := by
    intro it cache hem
    unfold processQueueItem parsedAstFor
    dsimp only
    obtain ⟨p, hp, hpc⟩ := hem ((mapGet cache.originalAST it.name).getD
      (env.parseFile it.name it.code it.parseConfig))
    rw [hp]
    dsimp only
    rw [if_pos hpc]
  refine ⟨hpq, ?_⟩
  have hpe : processEntrypoint env st.cache item = Except.ok (ProcEntryOut.skip
      { st.cache with
          originalAST := mapSet st.cache.originalAST item.entrypoint.name
            (parsedAstFor env st.cache item.entrypoint) }) := by
    unfold processEntrypoint
    dsimp only
    rw [invalidateIfChanged_id st.cache item.entrypoint.name item.entrypoint.code hsrc,
        hnc]
    unfold processEntrypointRecompute
    rw [hpq item.entrypoint st.cache hempty]
  unfold driveStep
  rw [hqueue]
  dsimp only
  rw [hpe]

/-- A concrete evaluator that narrows everything away (empty output). -/
def evalW7 : EvaluatorFn := fun _ a _ _ =>
  { ast := a, code := "", imports := none, exports := none, deadExports := none }

/-- A concrete environment for the C7 witness. -/
def envW7 : Env :=
  { extname := fun _ => ".js",
    parseFile := fun _ _ _ => { tag := "parsed", program := some () },
    transformFromAst := fun _ _ _ _ =>
      some { ast := some { tag := "pre", program := some () }, code := "P",
             metadata := none },
    requireEvaluator := fun _ _ => evalW7,
    readFile := fun _ => "",
    dirname := fun _ => "",
    buildParseConfig := fun _ _ _ => { plugins := none, tag := "" } }

/-- The C7 witness entrypoint. -/
def itemW7 : IEntrypoint :=
  { code := "SRC", evaluator := evalW7, name := "/a.js", only := ["x"],
    parseConfig := { plugins := none, tag := "" }, deadImports := [] }

/-- The C7 witness driver state: one queued item, unchanged source, no cached
result. -/
def stW7 : DriverState :=
  { cache := { originalAST := [], codeCache := [], evalCache := [],
               resolveCache := [], sources := [("/a.js", "SRC")] },
    queue := [{ entrypoint := itemW7, stack := [], onSuccess := OnSuccess.noop }],
    batches := [], nextBatchId := 0, events := [] }

/-- Witness for C7: the concrete empty-output item is dropped; only the queue
is popped and the parsed AST cached. -/
theorem empty_output_drops_item_witness :
    driveStep envW7
      { extensions := [".js"], rules := [], babelOptions := { plugins := none, tag := "" } }
      (fun _ _ _ => Except.ok "") stW7 = Except.ok
      { stW7 with
          queue := [],
          cache := { stW7.cache with
            originalAST := mapSet stW7.cache.originalAST "/a.js"
              (parsedAstFor envW7 stW7.cache itemW7) } } :=
  (empty_output_drops_item envW7
    { extensions := [".js"], rules := [], babelOptions := { plugins := none, tag := "" } }
    (fun _ _ _ => Except.ok "") stW7
    { entrypoint := itemW7, stack := [], onSuccess := OnSuccess.noop } [] rfl rfl rfl
    (fun _ => ⟨{ ast := { tag := "pre", program := some () }, code := "",
                 metadata := none, imports := none, exports := none,
                 deadExports := [], evaluatorInvoked := true }, rfl, rfl⟩)).2

/-! ## Claim C8 -/

/-- **C8.** For every import specifier whose resolver call throws, the failure
is recovered locally: the edge's resolved path becomes `null`
(`resolveImportSync` catches the error), a `null`-resolved entry leaves the
state untouched in the `processImports` loop (so the edge enters neither the
resolution cache nor the queue), the loop over the remaining entries behaves
exactly as if the failed entry were absent, and a driver step whose
`processEntrypoint` succeeds never returns an error — resolution failures
cannot abort the traversal. -/
theorem resolver_failure_recovered (env : Env) (po : PluginOptions) :
    (∀ (resolve : String → String → List String → Except String String)
        (item : NextItem) (p : String × List String) (e : String),
      resolve p.1 item.entrypoint.name item.stack = Except.error e →
      resolveImportSync resolve item p =
        { importedFile := p.1, importsOnly := p.2, resolved := none }) ∧
    (∀ (parent : NextItem) (bid : Nat) (st : DriverState) (i : ResolvedImport),
      i.resolved = none → processImportsStep env po parent bid st i = st) ∧
    (∀ (parent : NextItem) (bid : Nat) (st : DriverState)
        (l₁ l₂ : List ResolvedImport) (bad : ResolvedImport),
      bad.resolved = none →
      (l₁ ++ bad :: l₂).foldl (processImportsStep env po parent bid) st =
        (l₁ ++ l₂).foldl (processImportsStep env po parent bid) st) ∧
    (∀ (resolve : String → String → List String → Except String String)
        (st : DriverState) (item : NextItem) (rest : List NextItem)
        (out : ProcEntryOut),
      st.queue = item :: rest →
      processEntrypoint env st.cache item = Except.ok out →
      ∃ st', driveStep env po resolve st = Except.ok st') := by
  have h2 : ∀ (parent : NextItem) (bid : Nat) (st : DriverState) (i : ResolvedImport),
      i.resolved = none → processImportsStep env po parent bid st i = st := by
    intro parent bid st i hres
    unfold processImportsStep
    rw [hres]
  refine ⟨?_, h2, ?_, ?_⟩
  · intro resolve item p e hres
    unfold resolveImportSync
    rw [hres]
  · intro parent bid st l₁ l₂ bad hbad
    rw [List.foldl_append, List.foldl_append, List.foldl_cons,
        h2 parent bid _ bad hbad]
  · intro resolve st item rest out hq hpe
    unfold driveStep
    rw [hq]
    dsimp only
    rw [hpe]
    cases out with
    | skip c => exact ⟨_, rfl⟩
    | done d b c => exact ⟨_, rfl⟩

/-- Witness for C8: a concrete throwing resolver yields a `null` edge, and a
`null` edge is a no-op for the import loop. -/
theorem resolver_failure_recovered_witness :
    resolveImportSync (fun _ _ _ => Except.error "ENOENT")
      { entrypoint :=
          { code := "SRC",
            evaluator := fun _ a c _ =>
              { ast := a, code := c, imports := none, exports := none, deadExports := none },
            name := "/a.js", only := ["x"],
            parseConfig := { plugins := none, tag := "" }, deadImports := [] },
        stack := [], onSuccess := OnSuccess.noop }
      ("./missing", ["a"]) =
      { importedFile := "./missing", importsOnly := ["a"], resolved := none } ∧
    processImportsStep
      { extname := fun _ => ".js",
        parseFile := fun _ _ _ => { tag := "p", program := some () },
        transformFromAst := fun _ _ _ _ => none,
        requireEvaluator := fun _ _ => fun _ a c _ =>
          { ast := a, code := c, imports := none, exports := none, deadExports := none },
        readFile := fun _ => "",
        dirname := fun _ => "",
        buildParseConfig := fun _ _ _ => { plugins := none, tag := "" } }
      { extensions := [".js"], rules := [], babelOptions := { plugins := none, tag := "" } }
      { entrypoint :=
          { code := "SRC",
            evaluator := fun _ a c _ =>
              { ast := a, code := c, imports := none, exports := none, deadExports := none },
            name := "/a.js", only := ["x"],
            parseConfig := { plugins := none, tag := "" }, deadImports := [] },
        stack := [], onSuccess := OnSuccess.noop }
      0 (initialDriverState emptyCacheState)
      { importsOnly := ["a"], importedFile := "./missing", resolved := none } =
      initialDriverState emptyCacheState := by
  have h := resolver_failure_recovered
    { extname := fun _ => ".js",
      parseFile := fun _ _ _ => { tag := "p", program := some () },
      transformFromAst := fun _ _ _ _ => none,
      requireEvaluator := fun _ _ => fun _ a c _ =>
        { ast := a, code := c, imports := none, exports := none, deadExports := none },
      readFile := fun _ => "",
      dirname := fun _ => "",
      buildParseConfig := fun _ _ _ => { plugins := none, tag := "" } }
    { extensions := [".js"], rules := [], babelOptions := { plugins := none, tag := "" } }
  refine ⟨h.1 (fun _ _ _ => Except.error "ENOENT") _ ("./missing", ["a"]) "ENOENT" rfl, ?_⟩
  exact h.2.1 _ 0 (initialDriverState emptyCacheState)
    { importsOnly := ["a"], importedFile := "./missing", resolved := none } rfl

/-! ## Claim C1 -/

/-- The characterization of `isEqual(cached.only, mergedOnly)` for the merged
`only` built by `processEntrypoint`: true exactly when the cached list contains
`'*'`, or is duplicate-free and contains every requested name.  (With a
duplicate in the cached list the length check of `isEqual` fails even though
the cached set contains every requested name.) -/
theorem isEqual_merged_iff (cachedOnly only : List String) :
    isEqual cachedOnly (jsSetOfList (cachedOnly ++ only)) = true ↔
      ("*" ∈ cachedOnly ∨ (cachedOnly.Nodup ∧ ∀ x ∈ only, x ∈ cachedOnly)) := by
  rw [isEqual_true_iff]
  constructor
  · rintro (h | h)
    · exact Or.inl h
    · refine Or.inr ⟨h.nodup_iff.mpr (nodup_jsSetOfList _), ?_⟩
      intro x hx
      have hmem : x ∈ jsSetOfList (cachedOnly ++ only) :=
        (mem_jsSetOfList _ x).mpr (List.mem_append.mpr (Or.inr hx))
      exact h.mem_iff.mpr hmem
  · rintro (h | ⟨hnd, hsub⟩)
    · exact Or.inl h
    · refine Or.inr (List.perm_of_nodup_nodup_toFinset_eq hnd (nodup_jsSetOfList _) ?_)
      ext a
      simp only [List.mem_toFinset, mem_jsSetOfList, List.mem_append]
      constructor
      · exact Or.inl
      · rintro (ha | ha)
        · exact ha
        · exact hsub a ha

/-- The cache state carried by a `processEntrypoint` outcome. -/
def procEntryOutCache : ProcEntryOut → CacheState
  | ProcEntryOut.skip c => c
  | ProcEntryOut.done _ _ c => c

/-- The recompute path never reports a cache hit. -/
theorem processEntrypointRecompute_not_fromCache (env : Env) (cc : CacheState)
    (ni : NextItem) (m : List String) (d : ProcDone) (c' : CacheState) :
    processEntrypointRecompute env cc ni m ≠
      Except.ok (ProcEntryOut.done d true c') := by
  intro hcontra
  unfold processEntrypointRecompute at hcontra
  rcases h : processQueueItem env (some { ni.entrypoint with only := m }) cc with _ | pr
  · rw [h] at hcontra
    cases hcontra
  · rw [h] at hcontra
    rcases pr with ⟨_ | p, c⟩
    · simp at hcontra
    · simp at hcontra

/-- `processQueueItem` never touches the eval-level cache. -/
theorem processQueueItem_evalCache (env : Env) (it : Option IEntrypoint)
    (cc : CacheState) (out : Option ProcessedItem × CacheState)
    (h : processQueueItem env it cc = Except.ok out) :
    out.2.evalCache = cc.evalCache := by
  unfold processQueueItem at h
  rcases it with _ | item
  · cases h
    rfl
  · dsimp only at h
    split at h
    · cases h
    · split at h
      · cases h
        rfl
      · cases h
        rfl

/-- The recompute path never touches the eval-level cache of the state it is
given. -/
theorem processEntrypointRecompute_evalCache (env : Env) (cc : CacheState)
    (ni : NextItem) (m : List String) (out : ProcEntryOut)
    (h : processEntrypointRecompute env cc ni m = Except.ok out) :
    (procEntryOutCache out).evalCache = cc.evalCache := by
  unfold processEntrypointRecompute at h
  rcases hq : processQueueItem env (some { ni.entrypoint with only := m }) cc with _ | pr
  · rw [hq] at h
    cases h
  · rw [hq] at h
    rcases pr with ⟨_ | p, c⟩
    · cases h
      exact processQueueItem_evalCache env _ cc (none, c) hq
    · cases h
      exact processQueueItem_evalCache env _ cc (some p, c) hq

/-- **C1 (amended).** For every dequeued item with an unchanged source and a
cached result-cache entry `c` for its path: the cached entry is reused (no
recomputation) **iff** `c.only` contains `'*'`, or `c.only` is duplicate-free
and contains every export name of the current request; on reuse the cached
result is returned untouched together with the merged requested-export list;
otherwise the eval-level cache entry for the path is deleted (and stays absent
through the recomputation) and the file is recomputed with the merged
(unioned) requested-export list. -/
theorem cached_result_reuse_iff (env : Env) (cache : CacheState) (nextItem : NextItem)
    (c : CodeCacheEntry)
    (hsrc : mapGet cache.sources nextItem.entrypoint.name = some nextItem.entrypoint.code)
    (hcached : mapGet cache.codeCache nextItem.entrypoint.name = some c) :
    ((∃ d cache', processEntrypoint env cache nextItem =
        Except.ok (ProcEntryOut.done d true cache')) ↔
      ("*" ∈ c.only ∨ (c.only.Nodup ∧ ∀ x ∈ nextItem.entrypoint.only, x ∈ c.only))) ∧
    (("*" ∈ c.only ∨ (c.only.Nodup ∧ ∀ x ∈ nextItem.entrypoint.only, x ∈ c.only)) →
      processEntrypoint env cache nextItem = Except.ok (ProcEntryOut.done
        { imports := if nextItem.stack.contains nextItem.entrypoint.name then none
                     else c.imports,
          result := c.result,
          only := jsSetOfList (c.only ++ nextItem.entrypoint.only) } true cache)) ∧
    (¬ ("*" ∈ c.only ∨ (c.only.Nodup ∧ ∀ x ∈ nextItem.entrypoint.only, x ∈ c.only)) →
      processEntrypoint env cache nextItem = processEntrypointRecompute env
        { cache with
            evalCache :=
              cache.evalCache.filter (fun k => ¬ k = nextItem.entrypoint.name) }
        nextItem (jsSetOfList (c.only ++ nextItem.entrypoint.only)) ∧
      (∀ out, processEntrypoint env cache nextItem = Except.ok out →
        (procEntryOutCache out).evalCache =
          cache.evalCache.filter (fun k => ¬ k = nextItem.entrypoint.name))) := by
  have heq : processEntrypoint env cache nextItem =
      if isEqual c.only (jsSetOfList (c.only ++ nextItem.entrypoint.only)) then
        Except.ok (ProcEntryOut.done
          { imports := if nextItem.stack.contains nextItem.entrypoint.name then none
                       else c.imports,
            result := c.result,
            only := jsSetOfList (c.only ++ nextItem.entrypoint.only) } true cache)
      else processEntrypointRecompute env
        { cache with
            evalCache :=
              cache.evalCache.filter (fun k => ¬ k = nextItem.entrypoint.name) }
        nextItem (jsSetOfList (c.only ++ nextItem.entrypoint.only)) := by
    unfold processEntrypoint
    dsimp only
    rw [invalidateIfChanged_id cache nextItem.entrypoint.name nextItem.entrypoint.code hsrc,
        hcached]
  have hcond := isEqual_merged_iff c.only nextItem.entrypoint.only
  refine ⟨?_, ?_, ?_⟩
  · constructor
    · rintro ⟨d, cache', hdone⟩
      by_contra hc
      have hneg : ¬ isEqual c.only (jsSetOfList (c.only ++ nextItem.entrypoint.only)) = true :=
        fun hh => hc (hcond.mp hh)
      rw [heq, if_neg hneg] at hdone
      exact processEntrypointRecompute_not_fromCache env _ nextItem _ d cache' hdone
    · intro h
      refine ⟨{ imports := if nextItem.stack.contains nextItem.entrypoint.name then none
                          else c.imports,
                result := c.result,
                only := jsSetOfList (c.only ++ nextItem.entrypoint.only) }, cache, ?_⟩
      rw [heq, if_pos (hcond.mpr h)]
  · intro h
    rw [heq, if_pos (hcond.mpr h)]
  · intro h
    have hneg : ¬ isEqual c.only (jsSetOfList (c.only ++ nextItem.entrypoint.only)) = true :=
      fun hh => h (hcond.mp hh)
    refine ⟨by rw [heq, if_neg hneg], ?_⟩
    intro out hout
    rw [heq, if_neg hneg] at hout
    exact processEntrypointRecompute_evalCache env _ nextItem _ out hout

/-- A concrete evaluator producing fresh output `"NEW"`. -/
def evalC1 : EvaluatorFn := fun _ a _ _ =>
  { ast := a, code := "NEW", imports := none, exports := none, deadExports := none }

/-- A concrete environment for the C1 scenarios. -/
def envC1 : Env :=
  { extname := fun _ => ".js",
    parseFile := fun _ _ _ => { tag := "parsed", program := some () },
    transformFromAst := fun _ _ _ _ =>
      some { ast := some { tag := "pre", program := some () }, code := "P",
             metadata := none },
    requireEvaluator := fun _ _ => evalC1,
    readFile := fun _ => "",
    dirname := fun _ => "",
    buildParseConfig := fun _ _ _ => { plugins := none, tag := "" } }

/-- The previously cached (stale) result `"OLD"`. -/
def resultOldC1 : ITransformFileResult :=
  { ast := { tag := "old", program := some () }, code := "OLD", metadata := none,
    exports := none, deadExports := [] }

/-- A result-cache entry whose requested-export list has a duplicate. -/
def cachedEntryC1 : CodeCacheEntry :=
  { imports := none, only := ["a", "a"], result := resultOldC1 }

/-- The cache holding that entry for `/f.js`, with matching stored source. -/
def cacheC1 : CacheState :=
  { originalAST := [], codeCache := [("/f.js", cachedEntryC1)],
    evalCache := ["/f.js"], resolveCache := [], sources := [("/f.js", "SRC")] }

/-- The dequeued item requesting `["a"]` from `/f.js`. -/
def itemC1 : NextItem :=
  { entrypoint := { code := "SRC", evaluator := evalC1, name := "/f.js", only := ["a"],
                    parseConfig := { plugins := none, tag := "" }, deadImports := [] },
    stack := [], onSuccess := OnSuccess.noop }

/-- Counterexample to C1 as stated: the cached requested-export list
`["a","a"]` contains every export name of the current request `["a"]`, so the
claim predicts reuse; the code instead deletes the eval-cache entry and
recomputes — the outcome is the fresh `"NEW"` result with the cache-hit flag
`false` and an emptied `evalCache`, not the cached `"OLD"` result. -/
theorem cached_result_reuse_iff_counterexample :
    (∀ x ∈ itemC1.entrypoint.only, x ∈ cachedEntryC1.only) ∧
    processEntrypoint envC1 cacheC1 itemC1 = Except.ok (ProcEntryOut.done
      { imports := none,
        result := { ast := { tag := "pre", program := some () }, code := "NEW",
                    metadata := none, exports := none, deadExports := [] },
        only := ["a"] } false
      { originalAST := [("/f.js", { tag := "parsed", program := some () })],
        codeCache := [("/f.js", cachedEntryC1)],
        evalCache := [], resolveCache := [], sources := [("/f.js", "SRC")] }) := by
  constructor
  · decide
  · rfl

/-- The cache for the C1 witness: duplicate-free cached list `["a"]`. -/
def cacheC1w : CacheState :=
  { originalAST := [],
    codeCache := [("/f.js", { imports := none, only := ["a"], result := resultOldC1 })],
    evalCache := ["/f.js"], resolveCache := [], sources := [("/f.js", "SRC")] }

/-- Witness for C1 (amended): with a duplicate-free cached list containing the
request, the cached result is reused untouched. -/
theorem cached_result_reuse_iff_witness :
    processEntrypoint envC1 cacheC1w itemC1 = Except.ok (ProcEntryOut.done
      { imports := none, result := resultOldC1, only := ["a"] } true cacheC1w) :=
  (cached_result_reuse_iff envC1 cacheC1w itemC1
    { imports := none, only := ["a"], result := resultOldC1 } rfl rfl).2.1
    (Or.inr ⟨by decide, by decide⟩)

/-! ## Claim C2 -/

/-- **C2 (amended).** For every tracked import batch, invoking the
`onEveryImport` callback: (1) while the remaining set is still non-empty, only
the batch state is updated — no cache deletion, no enqueue; (2) once the
remaining set becomes empty with no collected dead imports, likewise nothing
further happens and the importer's produced result stands; (3) once the
remaining set becomes empty with at least one collected dead import, then the
result-cache entry of the importer is deleted and the importer is re-enqueued
under the same import chain and success callback with its `deadImports` list
**set to the collected dead imports** (the entrypoint's previous `deadImports`
are discarded, not extended). -/
theorem onEveryImport_propagation (st : DriverState) (bid : Nat) (b : Batch)
    (entryName : String) (result : ITransformFileResult)
    (hb : batchGet st.batches bid = some b) :
    (b.remaining.erase (some entryName) ≠ [] →
      runOnSuccess st (OnSuccess.everyImport bid) entryName result =
        { st with
            batches := batchSet st.batches bid
              { b with
                  remaining := b.remaining.erase (some entryName),
                  deadImports := collectDeadImports b.allImports b.deadImports entryName result.deadExports } }) ∧
    (b.remaining.erase (some entryName) = [] →
      collectDeadImports b.allImports b.deadImports entryName result.deadExports = [] →
      runOnSuccess st (OnSuccess.everyImport bid) entryName result =
        { st with
            batches := batchSet st.batches bid
              { b with remaining := [], deadImports := [] } }) ∧
    (b.remaining.erase (some entryName) = [] →
      collectDeadImports b.allImports b.deadImports entryName result.deadExports ≠ [] →
      runOnSuccess st (OnSuccess.everyImport bid) entryName result =
        enqueueItem
          { st with
              batches := batchSet st.batches bid
                { b with
                    remaining := [],
                    deadImports := collectDeadImports b.allImports b.deadImports entryName result.deadExports },
              cache := { st.cache with
                codeCache := mapDelete st.cache.codeCache b.parent.entrypoint.name } }
          { entrypoint := { b.parent.entrypoint with
              deadImports := collectDeadImports b.allImports b.deadImports entryName result.deadExports },
            stack := b.parent.stack, onSuccess := b.parent.onSuccess }) := by
  refine ⟨?_, ?_, ?_⟩
  · intro hne
    unfold runOnSuccess
    dsimp only
    rw [hb]
    dsimp only
    rw [if_neg (by simpa [List.isEmpty_iff] using hne)]
  · intro hemp hcol
    unfold runOnSuccess
    dsimp only
    rw [hb]
    dsimp only
    rw [hemp, hcol]
    rw [if_pos (by simp), if_pos (by simp)]
  · intro hemp hcol
    unfold runOnSuccess
    dsimp only
    rw [hb]
    dsimp only
    rw [hemp]
    rw [if_pos (by simp), if_neg (by simpa [List.isEmpty_iff] using hcol)]

/-- The importer's previously recorded dead import (from an earlier round). -/
def importRefOldC2 : ImportRef :=
  { fromName := "/old.js", what := "o", file := some "/old.js" }

/-- The dead import collected in the current round. -/
def importRefNewC2 : ImportRef :=
  { fromName := "/b.js", what := "y", file := some "/b.js" }

/-- The importer's entrypoint, already carrying `deadImports = [importRefOldC2]`. -/
def entryC2 : IEntrypoint :=
  { code := "SRC",
    evaluator := fun _ a c _ =>
      { ast := a, code := c, imports := none, exports := none, deadExports := none },
    name := "/p.js", only := ["*"],
    parseConfig := { plugins := none, tag := "" },
    deadImports := [importRefOldC2] }

/-- The importer item. -/
def parentC2 : NextItem :=
  { entrypoint := entryC2, stack := [], onSuccess := OnSuccess.noop }

/-- The batch tracking the importer's single import `/b.js`. -/
def batchC2 : Batch :=
  { allImports := [importRefNewC2], deadImports := [],
    remaining := [some "/b.js"], parent := parentC2 }

/-- The driver state holding that batch. -/
def stC2 : DriverState :=
  { cache := emptyCacheState, queue := [], batches := [(0, batchC2)],
    nextBatchId := 1, events := [] }

/-- The completed import's result, reporting `y` dead. -/
def resC2 : ITransformFileResult :=
  { ast := { tag := "b", program := some () }, code := "B", metadata := none,
    exports := none, deadExports := ["y"] }

/-- Counterexample to C2 as stated: the importer already carried the dead
entry `importRefOldC2`; when propagation fires, the re-enqueued entrypoint's
`deadImports` is exactly the newly collected `[importRefNewC2]` — the previous
entry is discarded rather than the list being extended. -/
theorem onEveryImport_propagation_counterexample :
    entryC2.deadImports = [importRefOldC2] ∧
    (runOnSuccess stC2 (OnSuccess.everyImport 0) "/b.js" resC2).queue.map
      (fun it => it.entrypoint.deadImports) = [[importRefNewC2]] ∧
    (importRefOldC2 ∉ [importRefNewC2]) := by
  refine ⟨rfl, rfl, ?_⟩
  decide

/-- Witness for C2 (amended): at the concrete batch, propagation deletes the
result-cache entry of the importer and re-enqueues it with `deadImports` set
to the collected `[importRefNewC2]`. -/
theorem onEveryImport_propagation_witness :
    runOnSuccess stC2 (OnSuccess.everyImport 0) "/b.js" resC2 =
      enqueueItem
        { stC2 with
            batches := batchSet stC2.batches 0
              { batchC2 with remaining := [], deadImports := [importRefNewC2] },
            cache := { stC2.cache with
              codeCache := mapDelete stC2.cache.codeCache "/p.js" } }
        { entrypoint := { entryC2 with deadImports := [importRefNewC2] },
          stack := [], onSuccess := OnSuccess.noop } :=
  (onEveryImport_propagation stC2 0 batchC2 "/b.js" resC2 rfl).2.2 rfl (by decide)

/-! ## Claim C4 -/

/-- The driver invokes a batch's callback once per completed import item; a
call is the completed entrypoint's name together with its result.  `runCalls`
is the effect of a sequence of such invocations on one batch's callback. -/
def runCalls (st : DriverState) (bid : Nat)
    (calls : List (String × ITransformFileResult)) : DriverState :=
  calls.foldl (fun st c => runOnSuccess st (OnSuccess.everyImport bid) c.1 c.2) st

theorem batchGet_batchSet (l : List (Nat × Batch)) (k : Nat) (b b2 : Batch)
    (h : batchGet l k = some b) : batchGet (batchSet l k b2) k = some b2 := by
  induction l with
  | nil => simp [batchGet] at h
  | cons p ps ih =>
    by_cases hp : p.1 = k
    · unfold batchGet batchSet
      rw [List.map_cons, if_pos hp, List.find?_cons]
      have hd : (decide ((k, b2).1 = k)) = true := by simp
      rw [hd]
      rfl
    · have hd : (decide (p.1 = k)) = false := by simp [hp]
      unfold batchGet at h ⊢
      unfold batchSet
      rw [List.find?_cons, hd] at h
      rw [List.map_cons, if_neg hp, List.find?_cons, hd]
      dsimp only at h ⊢
      exact ih h

theorem batchGet_append_fresh (l : List (Nat × Batch)) (k : Nat) (b : Batch)
    (h : ∀ p ∈ l, ¬ p.1 = k) : batchGet (l ++ [(k, b)]) k = some b := by
  unfold batchGet
  rw [List.find?_append]
  have hnone : l.find? (fun p => p.1 = k) = none :=
    List.find?_eq_none.mpr (fun p hp => by simp [h p hp])
  rw [hnone]
  simp

theorem processImportsStep_batches (env : Env) (po : PluginOptions)
    (parent : NextItem) (bid : Nat) (st : DriverState) (i : ResolvedImport) :
    (processImportsStep env po parent bid st i).batches = st.batches ∧
    (processImportsStep env po parent bid st i).nextBatchId = st.nextBatchId := by
  unfold processImportsStep
  split
  · exact ⟨rfl, rfl⟩
  · dsimp only
    split
    · exact ⟨rfl, rfl⟩
    · unfold enqueueItem
      exact ⟨rfl, rfl⟩

theorem foldl_processImportsStep_batches (env : Env) (po : PluginOptions)
    (parent : NextItem) (bid : Nat) (l : List ResolvedImport) :
    ∀ st : DriverState,
      (l.foldl (processImportsStep env po parent bid) st).batches = st.batches ∧
      (l.foldl (processImportsStep env po parent bid) st).nextBatchId = st.nextBatchId := by
  induction l with
  | nil => exact fun st => ⟨rfl, rfl⟩
  | cons x xs ih =>
    intro st
    rw [List.foldl_cons]
    have h1 := processImportsStep_batches env po parent bid st x
    have h2 := ih (processImportsStep env po parent bid st x)
    exact ⟨h2.1.trans h1.1, h2.2.trans h1.2⟩

/-- After `processImports`, the freshly allocated batch id maps to the initial
batch state. -/
theorem processImports_batchGet (env : Env) (po : PluginOptions) (st : DriverState)
    (parent : NextItem) (ris : List ResolvedImport)
    (hfresh : ∀ p ∈ st.batches, ¬ p.1 = st.nextBatchId) :
    batchGet (processImports env po st parent ris).batches st.nextBatchId =
      some (initialBatch parent ris) := by
  unfold processImports
  dsimp only
  rw [(foldl_processImportsStep_batches env po parent st.nextBatchId ris _).1]
  exact batchGet_append_fresh st.batches st.nextBatchId (initialBatch parent ris) hfresh

/-- An entry with a non-empty requested-name list contributes its (possibly
`null`) resolved file to the batch's `remaining` set. -/
theorem mem_remaining_of_bad (parent : NextItem) (ris : List ResolvedImport)
    (bad : ResolvedImport) (hmem : bad ∈ ris) (hne : bad.importsOnly ≠ []) :
    bad.resolved ∈ (initialBatch parent ris).remaining := by
  unfold initialBatch
  dsimp only
  rw [mem_jsSetOfList]
  obtain ⟨w, hw⟩ := List.exists_mem_of_ne_nil bad.importsOnly hne
  refine List.mem_map.mpr
    ⟨{ fromName := bad.importedFile, what := w, file := bad.resolved }, ?_, rfl⟩
  unfold importsOf
  rw [List.mem_flatMap]
  exact ⟨bad, hmem, List.mem_map.mpr ⟨w, hw, rfl⟩⟩

/-- While the erased name differs from a still-remaining key, one callback
invocation only updates the batch state. -/
theorem runOnSuccess_remaining_nonempty (st : DriverState) (bid : Nat) (b : Batch)
    (entryName : String) (result : ITransformFileResult)
    (hb : batchGet st.batches bid = some b)
    (hne : b.remaining.erase (some entryName) ≠ []) :
    runOnSuccess st (OnSuccess.everyImport bid) entryName result =
      { st with
          batches := batchSet st.batches bid
            { b with
                remaining := b.remaining.erase (some entryName),
                deadImports := collectDeadImports b.allImports b.deadImports entryName result.deadExports } } := by
  unfold runOnSuccess
  dsimp only
  rw [hb]
  dsimp only
  rw [if_neg (by simpa [List.isEmpty_iff] using hne)]

/-- A key that no call ever names survives in the batch's remaining set, and no
invocation enqueues anything. -/
theorem runCalls_keeps_blocked (bid : Nat) (k : Option String)
    (calls : List (String × ITransformFileResult)) :
    ∀ (st : DriverState) (b : Batch),
      batchGet st.batches bid = some b → k ∈ b.remaining →
      (∀ c ∈ calls, ¬ some c.1 = k) →
      ∃ b', batchGet (runCalls st bid calls).batches bid = some b' ∧
        k ∈ b'.remaining ∧ (runCalls st bid calls).queue = st.queue := by
  induction calls with
  | nil =>
    intro st b hb hk _
    exact ⟨b, hb, hk, rfl⟩
  | cons c cs ih =>
    intro st b hb hk hcalls
    have hkc : ¬ some c.1 = k := hcalls c (by simp)
    have hk' : k ∈ b.remaining.erase (some c.1) :=
      (List.mem_erase_of_ne (fun h => hkc h.symm)).mpr hk
    have hne : b.remaining.erase (some c.1) ≠ [] := List.ne_nil_of_mem hk'
    have hstep := runOnSuccess_remaining_nonempty st bid b c.1 c.2 hb hne
    have hruncons : runCalls st bid (c :: cs) =
        runCalls (runOnSuccess st (OnSuccess.everyImport bid) c.1 c.2) bid cs := rfl
    rw [hruncons, hstep]
    obtain ⟨b', h1, h2, h3⟩ := ih
      { st with
          batches := batchSet st.batches bid
            { b with
                remaining := b.remaining.erase (some c.1),
                deadImports := collectDeadImports b.allImports b.deadImports c.1 c.2.deadExports } }
      { b with
          remaining := b.remaining.erase (some c.1),
          deadImports := collectDeadImports b.allImports b.deadImports c.1 c.2.deadExports }
      (batchGet_batchSet st.batches bid b _ hb) hk'
      (fun d hd => hcalls d (by simp [hd]))
    exact ⟨b', h1, h2, h3⟩

/-- **C4 (amended).** For every import batch containing at least one entry with
a **non-empty** requested-name list that either failed to resolve (`resolved`
is `null`; such a file key is never the subject of a callback invocation, which
always carries a completed entrypoint's name), or resolved to a path for which
the batch callback is never invoked (in particular an entry whose created
entrypoint is the ignored marker is never enqueued, and an entry whose queue
item is skipped on empty transform output never reaches its success callback):
the batch's remaining set never becomes empty, and the importer is never
re-enqueued from this batch, whatever callback invocations arrive for the
other batch members. -/
theorem bad_import_blocks_propagation (env : Env) (po : PluginOptions)
    (st : DriverState) (parent : NextItem) (resolvedImports : List ResolvedImport)
    (bad : ResolvedImport) (calls : List (String × ITransformFileResult))
    (hfresh : ∀ p ∈ st.batches, ¬ p.1 = st.nextBatchId)
    (hmem : bad ∈ resolvedImports) (hne : bad.importsOnly ≠ [])
    (hbad : bad.resolved = none ∨
      ∃ P, bad.resolved = some P ∧ ∀ c ∈ calls, ¬ c.1 = P) :
    (∃ b', batchGet (runCalls (processImports env po st parent resolvedImports)
        st.nextBatchId calls).batches st.nextBatchId = some b' ∧
      b'.remaining ≠ []) ∧
    (runCalls (processImports env po st parent resolvedImports)
        st.nextBatchId calls).queue =
      (processImports env po st parent resolvedImports).queue := by
  have hb0 := processImports_batchGet env po st parent resolvedImports hfresh
  have hkmem : bad.resolved ∈ (initialBatch parent resolvedImports).remaining :=
    mem_remaining_of_bad parent resolvedImports bad hmem hne
  have hcalls : ∀ c ∈ calls, ¬ some c.1 = bad.resolved := by
    rcases hbad with h | ⟨P, hP, hc⟩
    · intro c _ hcontra
      rw [h] at hcontra
      cases hcontra
    · intro c hcmem hcontra
      rw [hP] at hcontra
      exact hc c hcmem (Option.some.inj hcontra)
  obtain ⟨b', h1, h2, h3⟩ := runCalls_keeps_blocked st.nextBatchId bad.resolved calls
    (processImports env po st parent resolvedImports)
    (initialBatch parent resolvedImports) hb0 hkmem hcalls
  exact ⟨⟨b', h1, List.ne_nil_of_mem h2⟩, h3⟩

/-- A pass-through evaluator for the C4 scenarios. -/
def evalC4 : EvaluatorFn := fun _ a c _ =>
  { ast := a, code := c, imports := none, exports := none, deadExports := none }

/-- A concrete environment for the C4 scenarios. -/
def envC4 : Env :=
  { extname := fun _ => ".js",
    parseFile := fun _ _ _ => { tag := "p", program := some () },
    transformFromAst := fun _ _ _ c =>
      some { ast := some { tag := "pre", program := some () }, code := c,
             metadata := none },
    requireEvaluator := fun _ _ => evalC4,
    readFile := fun _ => "",
    dirname := fun _ => "",
    buildParseConfig := fun _ _ _ => { plugins := none, tag := "" } }

/-- Concrete plugin options for the C4 scenarios. -/
def poC4 : PluginOptions :=
  { extensions := [".js"],
    rules := [{ test := none, action := RuleAction.evaluatorFn evalC4, babelOptions := none }],
    babelOptions := { plugins := none, tag := "" } }

/-- The importer whose batch is under scrutiny. -/
def parentC4 : NextItem :=
  { entrypoint := { code := "SRC", evaluator := evalC4, name := "/p.js", only := ["*"],
                    parseConfig := { plugins := none, tag := "" }, deadImports := [] },
    stack := [], onSuccess := OnSuccess.noop }

/-- A batch with a failed-to-resolve entry whose requested-name list is empty,
plus one good import. -/
def risC4 : List ResolvedImport :=
  [{ importsOnly := [], importedFile := "./dead", resolved := none },
   { importsOnly := ["x"], importedFile := "/b.js", resolved := some "/b.js" }]

/-- The good import's result, reporting `x` dead. -/
def resC4 : ITransformFileResult :=
  { ast := { tag := "b", program := some () }, code := "B", metadata := none,
    exports := none, deadExports := ["x"] }

/-- The state right after `processImports` built the batch. -/
def stAC4 : DriverState :=
  processImports envC4 poC4 (initialDriverState emptyCacheState) parentC4 risC4

/-- The state after the good import's callback fired. -/
def stBC4 : DriverState := runOnSuccess stAC4 (OnSuccess.everyImport 0) "/b.js" resC4

/-- Counterexample to C4 as stated: the batch contains an entry that failed to
resolve (`resolved = null`), yet — because its `importsOnly` list is empty, it
contributes nothing to the `remaining` set — the remaining set does become
empty once the one good import completes, and the importer `/p.js` **is**
re-enqueued with the dead imports collected from this batch. -/
theorem bad_import_blocks_propagation_counterexample :
    ({ importsOnly := [], importedFile := "./dead", resolved := none } :
      ResolvedImport) ∈ risC4 ∧
    (batchGet stBC4.batches 0).map (fun b => b.remaining) = some [] ∧
    stBC4.queue.map (fun it => (it.entrypoint.name, it.entrypoint.deadImports)) =
      [("/b.js", []),
       ("/p.js", [{ fromName := "/b.js", what := "x", file := some "/b.js" }])] := by
  refine ⟨by decide, rfl, rfl⟩

/-- The batch for the C4 witness: the failed entry has a non-empty
requested-name list, so it blocks propagation. -/
def risW4 : List ResolvedImport :=
  [{ importsOnly := ["y"], importedFile := "./nope", resolved := none },
   { importsOnly := ["x"], importedFile := "/b.js", resolved := some "/b.js" }]

/-- Witness for C4 (amended): with the blocked batch, the same callback
invocation enqueues nothing. -/
theorem bad_import_blocks_propagation_witness :
    (runCalls (processImports envC4 poC4 (initialDriverState emptyCacheState)
        parentC4 risW4) 0 [("/b.js", resC4)]).queue =
      (processImports envC4 poC4 (initialDriverState emptyCacheState)
        parentC4 risW4).queue :=
  (bad_import_blocks_propagation envC4 poC4 (initialDriverState emptyCacheState)
    parentC4 risW4
    { importsOnly := ["y"], importedFile := "./nope", resolved := none }
    [("/b.js", resC4)]
    (fun p hp => by cases hp) (by decide) (by decide) (Or.inl rfl)).2
